import Mathlib

set_option maxHeartbeats 1600000

/-!
Verification of the trajectory precomputation and playback engine of the
nbody simulator (src/sim/mod.rs).

The embedding models the three Bevy systems `simulate`, `update_positions`
and `clear_trajectories_on_change` as functions on an explicit state.
`f32` values are modelled by `ℚ` (the exact, real-arithmetic semantics of
the floating-point program); the square-root routine used by
`Vec2::normalize` is therefore an explicit parameter `sqrt : ℚ → ℚ`, and
concrete evaluations add its defining equations (such as `sqrt 100 = 10`)
as hypotheses.  Operations that can panic (indexing out of bounds, `usize`
underflow in debug builds, `Option::unwrap`) return `none`.
-/

namespace NBody

/-- Exact-rational model of the `glam::Vec2` used for positions, velocities
and accelerations. -/
structure Vec2 where
  x : ℚ
  y : ℚ
deriving DecidableEq

def Vec2.zero : Vec2 := ⟨0, 0⟩

def Vec2.add (a b : Vec2) : Vec2 := ⟨a.x + b.x, a.y + b.y⟩

def Vec2.sub (a b : Vec2) : Vec2 := ⟨a.x - b.x, a.y - b.y⟩

def Vec2.mulQ (v : Vec2) (c : ℚ) : Vec2 := ⟨v.x * c, v.y * c⟩

def Vec2.divQ (v : Vec2) (c : ℚ) : Vec2 := ⟨v.x / c, v.y / c⟩

def Vec2.smulQ (c : ℚ) (v : Vec2) : Vec2 := ⟨c * v.x, c * v.y⟩

instance : Add Vec2 := ⟨Vec2.add⟩
instance : Sub Vec2 := ⟨Vec2.sub⟩
instance : HMul Vec2 ℚ Vec2 := ⟨Vec2.mulQ⟩
instance : HDiv Vec2 ℚ Vec2 := ⟨Vec2.divQ⟩
instance : SMul ℚ Vec2 := ⟨Vec2.smulQ⟩

def Vec2.length_squared (v : Vec2) : ℚ := v.x * v.x + v.y * v.y

/-- `Vec2::normalize`: the vector divided by its length
`sqrt (length_squared)`, with the square root left as a parameter. -/
def Vec2.normalize (sqrt : ℚ → ℚ) (v : Vec2) : Vec2 := v / sqrt v.length_squared

/-- `SimSnapshot`: one body's velocity and position at one time index. -/
structure SimSnapshot where
  velocity : Vec2
  position : Vec2
deriving DecidableEq

instance : Inhabited SimSnapshot := ⟨⟨Vec2.zero, Vec2.zero⟩⟩

/-- One simulated entity: its `Mass`, `Radius` and `Trajectory` components
and the translation of its `Transform` (the externally visible position;
the z component is always 0 and is dropped).  The `Trajectory` VecDeque is
a list whose head is the front (index 0); `push_back` appends at the tail.
The `Name` string plays no role in any claim and is omitted. -/
structure Body where
  mass : ℚ
  radius : ℚ
  translation : Vec2
  traj : List SimSnapshot
deriving DecidableEq

/-- Resource `SimData`. -/
structure SimData where
  gravitational_const : ℚ
  trajectory_pos : ℕ
deriving DecidableEq

/-- The state the three systems operate on: the `SimData` resource and the
list of simulated bodies (the ECS query result, in query order). -/
structure Sys where
  sim : SimData
  bodies : List Body
deriving DecidableEq

def TRAJECTORY_LEN : ℕ := 12000

def TIME_STEP : ℚ := 0.005

/-- The inner `for (k, ...) in query_items.iter().enumerate()` loop of
`simulate`: reads `other_trajectory[i]` (`none` models the out-of-bounds
panic; note the source indexes before the `j == k` continue), skips
`k = j`, otherwise adds `direction * G * other_mass / sqr_dist` where
`direction = distance.normalize()` and `sqr_dist = distance.length_squared()`. -/
def accelLoop (sqrt : ℚ → ℚ) (G : ℚ) (i j : ℕ) (current : SimSnapshot) :
    ℕ → Vec2 → List Body → Option Vec2
  | _, accel, [] => some accel
  | k, accel, other_obj :: rest =>
    match other_obj.traj.get? i with
    | none => none
    | some other =>
      if j = k then accelLoop sqrt G i j current (k + 1) accel rest
      else
        accelLoop sqrt G i j current (k + 1)
          (accel +
            (other.position - current.position).normalize sqrt * G * other_obj.mass /
              (other.position - current.position).length_squared)
          rest

/-- The body loop `for j in 0..query_items.len()` of one outer iteration of
`simulate`.  The in-place indexed mutation of the query vector is rendered
as a zipper: `done` is the already-updated prefix, the loop index `j` is
`done.length`, and all reads (`current_trajectory.0[i]`, and the whole
vector inside `accelLoop`) go to the full current list `done ++ todo`.
Body j's new snapshot is pushed back before body j+1 is processed. -/
def stepBodies (sqrt : ℚ → ℚ) (G : ℚ) (i : ℕ) :
    List Body → List Body → Option (List Body)
  | done, [] => some done
  | done, b :: todo =>
    match b.traj.get? i with
    | none => none
    | some current =>
      match accelLoop sqrt G i done.length current 0 Vec2.zero (done ++ b :: todo) with
      | none => none
      | some accel =>
        let velocity := current.velocity + accel * TIME_STEP
        stepBodies sqrt G i
          (done ++ [{ b with traj := b.traj ++
            [{ velocity := velocity,
               position := current.position + velocity * TIME_STEP }] }])
          todo

/-- The outer `for i in sim.trajectory_pos - 1..TRAJECTORY_LEN - 1` loop of
`simulate`, over the (pre-evaluated) list of indices. -/
def simLoop (sqrt : ℚ → ℚ) (G : ℚ) : List ℕ → List Body → Option (List Body)
  | [], bodies => some bodies
  | i :: is, bodies =>
    match stepBodies sqrt G i [] bodies with
    | none => none
    | some bodies' => simLoop sqrt G is bodies'

/-- System `simulate` (the precomputation pass).  An empty query returns
early ("Nothing to simulate").  `trajectory_pos - 1` is a `usize`
subtraction, so `trajectory_pos = 0` is an underflow panic (`none`).
`sim.trajectory_pos += 1` runs once per completed outer iteration, so on
success the cursor ends at `trajectory_pos + count`. -/
def simulate (sqrt : ℚ → ℚ) (s : Sys) : Option Sys :=
  if s.bodies.isEmpty then some s
  else if s.sim.trajectory_pos = 0 then none
  else
    let start := s.sim.trajectory_pos - 1
    let count := (TRAJECTORY_LEN - 1) - start
    match simLoop sqrt s.sim.gravitational_const (List.range' start count) s.bodies with
    | none => none
    | some bodies =>
      some ⟨⟨s.sim.gravitational_const, s.sim.trajectory_pos + count⟩, bodies⟩

/-- The per-body loop of `update_positions`: pops the front snapshot of
each trajectory and writes its position to the body's translation.  An
empty trajectory returns from the system (`.inl`), leaving that body and
all later ones untouched — but the bodies already popped stay popped. -/
def popLoop : List Body → List Body ⊕ List Body
  | [] => .inr []
  | b :: rest =>
    match b.traj with
    | [] => .inl (b :: rest)
    | a :: t =>
      match popLoop rest with
      | .inl rest' => .inl ({ b with translation := a.position, traj := t } :: rest')
      | .inr rest' => .inr ({ b with translation := a.position, traj := t } :: rest')

/-- System `update_positions` (the playback advance).  An empty query
returns early ("Nothing to update").  When the pop loop runs to completion
`sim.trajectory_pos -= 1` executes: a `usize` subtraction, so
`trajectory_pos = 0` is an underflow panic (`none`); when the loop returned
early ("Trajectory is empty") the decrement is skipped. -/
def update_positions (s : Sys) : Option Sys :=
  if s.bodies.isEmpty then some s
  else
    match popLoop s.bodies with
    | .inl bodies => some { s with bodies := bodies }
    | .inr bodies =>
      if s.sim.trajectory_pos = 0 then none
      else some ⟨⟨s.sim.gravitational_const, s.sim.trajectory_pos - 1⟩, bodies⟩

/-- The per-body loop of `clear_trajectories_on_change`:
`traj.front().unwrap()` (panic on an empty trajectory), clear, push the
front element back. -/
def clearLoop : List Body → Option (List Body)
  | [] => some []
  | b :: rest =>
    match b.traj.head? with
    | none => none
    | some current =>
      match clearLoop rest with
      | none => none
      | some rest' => some ({ b with traj := [current] } :: rest')

/-- System `clear_trajectories_on_change`, for one received
`ClearTrajectories` event: truncate every trajectory to its front element
and reset `trajectory_pos` to 1. -/
def clear_trajectories_on_change (s : Sys) : Option Sys :=
  match clearLoop s.bodies with
  | none => none
  | some bodies => some ⟨⟨s.sim.gravitational_const, 1⟩, bodies⟩

/-! ### Pure description of one integration step -/

def dsnap : SimSnapshot := ⟨Vec2.zero, Vec2.zero⟩

/-- The value `accelLoop` computes when every read is in bounds: the same
accumulation over the (mass, step-i snapshot) pairs. -/
def accelPure (sqrt : ℚ → ℚ) (G : ℚ) (j : ℕ) (current : SimSnapshot) :
    ℕ → Vec2 → List (ℚ × SimSnapshot) → Vec2
  | _, accel, [] => accel
  | k, accel, (m, other) :: rest =>
    if j = k then accelPure sqrt G j current (k + 1) accel rest
    else
      accelPure sqrt G j current (k + 1)
        (accel +
          (other.position - current.position).normalize sqrt * G * m /
            (other.position - current.position).length_squared)
        rest

/-- All bodies' step-i snapshots paired with their masses. -/
def ctxAt (bodies : List Body) (i : ℕ) : List (ℚ × SimSnapshot) :=
  bodies.map fun b => (b.mass, b.traj.getD i dsnap)

/-- The semi-implicit Euler step of one body, exactly as `simulate`
performs it. -/
def integrate (sqrt : ℚ → ℚ) (G : ℚ) (ctx : List (ℚ × SimSnapshot)) (j : ℕ)
    (current : SimSnapshot) : SimSnapshot :=
  let accel := accelPure sqrt G j current 0 Vec2.zero ctx
  let velocity := current.velocity + accel * TIME_STEP
  { velocity := velocity, position := current.position + velocity * TIME_STEP }

/-- Extend every body of `l` (at positions `j, j+1, ...` of the full list)
with its next snapshot, all computed from the fixed context `ctx`. -/
def extendFrom (sqrt : ℚ → ℚ) (G : ℚ) (ctx : List (ℚ × SimSnapshot)) (i : ℕ) :
    ℕ → List Body → List Body
  | _, [] => []
  | j, b :: rest =>
    { b with traj := b.traj ++ [integrate sqrt G ctx j (b.traj.getD i dsnap)] } ::
      extendFrom sqrt G ctx i (j + 1) rest

/-- The pure effect of the whole precomputation loop: `count` successive
synchronized extensions starting at time index `i`. -/
def extendIter (sqrt : ℚ → ℚ) (G : ℚ) : ℕ → ℕ → List Body → List Body
  | _, 0, bodies => bodies
  | i, count + 1, bodies =>
    extendIter sqrt G (i + 1) count (extendFrom sqrt G (ctxAt bodies i) i 0 bodies)

/-! ### The spec-side description of the integrator -/

/-- Modelled from the spec: the acceleration of the target body j is the
sum, over the other bodies k (k ≠ j, in body order), of the contributions
`G * mass_k * normalize d / |d|^2`, with `d` the vector from the target's
position to body k's position. -/
def specAccelSum (sqrt : ℚ → ℚ) (G : ℚ) (j : ℕ) (current : SimSnapshot) :
    ℕ → List (ℚ × SimSnapshot) → Vec2
  | _, [] => Vec2.zero
  | k, (m, other) :: rest =>
    (if j = k then Vec2.zero
     else
       (G * m) • (other.position - current.position).normalize sqrt /
         (other.position - current.position).length_squared) +
      specAccelSum sqrt G j current (k + 1) rest

/-- Modelled from the spec: the computation phase of the synchronized
two-phase update — every body's step-(i+1) snapshot is computed from the
common step-i context `bodies`, none of which has been advanced yet. -/
def computeNext (sqrt : ℚ → ℚ) (G : ℚ) (bodies : List Body) (i : ℕ) :
    ℕ → List Body → Option (List SimSnapshot)
  | _, [] => some []
  | j, b :: rest =>
    match b.traj.get? i with
    | none => none
    | some current =>
      match accelLoop sqrt G i j current 0 Vec2.zero bodies with
      | none => none
      | some accel =>
        match computeNext sqrt G bodies i (j + 1) rest with
        | none => none
        | some snaps =>
          let velocity := current.velocity + accel * TIME_STEP
          some ({ velocity := velocity,
                  position := current.position + velocity * TIME_STEP } :: snaps)

/-- Modelled from the spec: the synchronized, no-intermediate-state update —
first compute all step-(i+1) snapshots from the same step-i context, then
append them all simultaneously. -/
def twoPhaseStep (sqrt : ℚ → ℚ) (G : ℚ) (i : ℕ) (bodies : List Body) :
    Option (List Body) :=
  match computeNext sqrt G bodies i 0 bodies with
  | none => none
  | some snaps =>
    some (List.zipWith (fun b snap => { b with traj := b.traj ++ [snap] }) bodies snaps)

/-! ### Vec2 arithmetic lemmas -/

theorem Vec2.add_def (a b : Vec2) : a + b = ⟨a.x + b.x, a.y + b.y⟩ := rfl

theorem Vec2.sub_def (a b : Vec2) : a - b = ⟨a.x - b.x, a.y - b.y⟩ := rfl

theorem Vec2.mulQ_def (v : Vec2) (c : ℚ) : v * c = ⟨v.x * c, v.y * c⟩ := rfl

theorem Vec2.divQ_def (v : Vec2) (c : ℚ) : v / c = ⟨v.x / c, v.y / c⟩ := rfl

theorem Vec2.smulQ_def (c : ℚ) (v : Vec2) : c • v = ⟨c * v.x, c * v.y⟩ := rfl

theorem Vec2.zero_add_v (v : Vec2) : Vec2.zero + v = v := by
  cases v; simp [Vec2.zero, Vec2.add_def]

theorem Vec2.add_zero_v (v : Vec2) : v + Vec2.zero = v := by
  cases v; simp [Vec2.zero, Vec2.add_def]

theorem Vec2.add_assoc_v (a b c : Vec2) : a + b + c = a + (b + c) := by
  cases a; cases b; cases c; simp [Vec2.add_def, add_assoc]

/-- The contribution the code accumulates equals the contribution as the
spec phrases it. -/
theorem Vec2.contrib_eq (sqrt : ℚ → ℚ) (G m : ℚ) (d : Vec2) (L : ℚ) :
    d.normalize sqrt * G * m / L = (G * m) • d.normalize sqrt / L := by
  cases hd : d.normalize sqrt
  simp only [Vec2.mulQ_def, Vec2.divQ_def, Vec2.smulQ_def, Vec2.mk.injEq]
  constructor <;> ring

/-! ### Characterizing the acceleration loop -/

theorem accelLoop_ok (sqrt : ℚ → ℚ) (G : ℚ) (i j : ℕ) (current : SimSnapshot) :
    ∀ (l : List Body) (k : ℕ) (acc : Vec2), (∀ b ∈ l, i < b.traj.length) →
      accelLoop sqrt G i j current k acc l =
        some (accelPure sqrt G j current k acc
          (l.map fun b => (b.mass, b.traj.getD i dsnap))) := by
  intro l
  induction l with
  | nil => intro k acc _; rfl
  | cons b rest ih =>
    intro k acc h
    have hb : i < b.traj.length := h b (List.mem_cons_self b rest)
    have hget : b.traj.get? i = some (b.traj.getD i dsnap) := by
      rw [List.getD_eq_getD_get?, List.get?_eq_get hb]; rfl
    have hrest : ∀ x ∈ rest, i < x.traj.length := fun x hx => h x (List.mem_cons_of_mem b hx)
    simp only [accelLoop, hget, List.map_cons, accelPure]
    by_cases hjk : j = k
    · simp only [if_pos hjk, ih (k + 1) acc hrest]
    · simp only [if_neg hjk, ih (k + 1) _ hrest]

theorem accelLoop_bad (sqrt : ℚ → ℚ) (G : ℚ) (i j : ℕ) (current : SimSnapshot) :
    ∀ (l : List Body) (k : ℕ) (acc : Vec2), (∃ b ∈ l, b.traj.length ≤ i) →
      accelLoop sqrt G i j current k acc l = none := by
  intro l
  induction l with
  | nil => rintro k acc ⟨b, hb, -⟩; cases hb
  | cons b rest ih =>
    rintro k acc ⟨x, hx, hxlen⟩
    rcases List.mem_cons.mp hx with rfl | hx'
    · have : x.traj.get? i = none := List.get?_eq_none.mpr hxlen
      simp only [accelLoop, this]
    · cases hget : b.traj.get? i with
      | none => simp only [accelLoop, hget]
      | some other =>
        simp only [accelLoop, hget]
        by_cases hjk : j = k
        · simp only [if_pos hjk]; exact ih (k + 1) acc ⟨x, hx', hxlen⟩
        · simp only [if_neg hjk]; exact ih (k + 1) _ ⟨x, hx', hxlen⟩

/-- The accumulator loop is the spec's sum. -/
theorem accelPure_spec (sqrt : ℚ → ℚ) (G : ℚ) (j : ℕ) (current : SimSnapshot) :
    ∀ (ctx : List (ℚ × SimSnapshot)) (k : ℕ) (acc : Vec2),
      accelPure sqrt G j current k acc ctx =
        acc + specAccelSum sqrt G j current k ctx := by
  intro ctx
  induction ctx with
  | nil => intro k acc; simp [accelPure, specAccelSum, Vec2.add_zero_v]
  | cons p rest ih =>
    rintro k acc
    cases p with
    | mk m other =>
      by_cases hjk : j = k
      · simp only [accelPure, specAccelSum, if_pos hjk, ih (k + 1) acc,
          Vec2.zero_add_v]
      · simp only [accelPure, specAccelSum, if_neg hjk, ih (k + 1) _]
        rw [Vec2.contrib_eq, Vec2.add_assoc_v]

/-! ### Characterizing the body loop of one time index -/

/-- When every read is in bounds, the sequential in-place loop produces
exactly the synchronized extension computed from the step-i context of the
list it started from: bodies already extended in this pass only changed at
tail index `i + 1`, so all step-i reads still see the common snapshot. -/
theorem stepBodies_ok (sqrt : ℚ → ℚ) (G : ℚ) (i : ℕ) :
    ∀ (todo done : List Body), (∀ b ∈ done ++ todo, i < b.traj.length) →
      stepBodies sqrt G i done todo =
        some (done ++ extendFrom sqrt G (ctxAt (done ++ todo) i) i done.length todo) := by
  intro todo
  induction todo with
  | nil => intro done h; simp [stepBodies, extendFrom]
  | cons b todo ih =>
    intro done h
    have hb : i < b.traj.length := h b (by simp)
    have hget : b.traj.get? i = some (b.traj.getD i dsnap) := by
      rw [List.getD_eq_getD_get?, List.get?_eq_get hb]; rfl
    have hacc := accelLoop_ok sqrt G i done.length (b.traj.getD i dsnap)
      (done ++ b :: todo) 0 Vec2.zero h
    have hstep : stepBodies sqrt G i done (b :: todo) =
        stepBodies sqrt G i
          (done ++ [{ b with traj := b.traj ++
            [integrate sqrt G (ctxAt (done ++ b :: todo) i) done.length
              (b.traj.getD i dsnap)] }]) todo := by
      simp only [stepBodies, hget, hacc, integrate, ctxAt]
    set w : SimSnapshot :=
      integrate sqrt G (ctxAt (done ++ b :: todo) i) done.length (b.traj.getD i dsnap) with hw
    set b1 : Body := { b with traj := b.traj ++ [w] } with hb1
    have hreads : ∀ x ∈ (done ++ [b1]) ++ todo, i < x.traj.length := by
      intro x hx
      rcases List.mem_append.mp hx with hx' | hx'
      · rcases List.mem_append.mp hx' with hx'' | hx''
        · exact h x (List.mem_append.mpr (Or.inl hx''))
        · rcases List.mem_singleton.mp hx''
          calc i < b.traj.length := hb
          _ ≤ b1.traj.length := by simp [hb1]
      · exact h x (by simp [hx'])
    have hgd : (b.traj ++ [w]).getD i dsnap = b.traj.getD i dsnap :=
      List.getD_append _ _ _ i hb
    have hctx : ctxAt ((done ++ [b1]) ++ todo) i = ctxAt (done ++ b :: todo) i := by
      simp only [ctxAt, List.map_append, List.map_cons, List.map_singleton,
        List.append_assoc, List.singleton_append]
      simp [hb1, List.getElem?_append_left hb]
    rw [hstep, ih _ hreads, hctx]
    simp only [List.length_append, List.length_singleton, List.append_assoc,
      List.singleton_append, extendFrom]

/-- If some body's trajectory is too short, the very first body's pass over
the whole list hits the out-of-bounds index and the loop panics. -/
theorem stepBodies_bad (sqrt : ℚ → ℚ) (G : ℚ) (i : ℕ) (b : Body) (rest : List Body)
    (hbad : ∃ x ∈ b :: rest, x.traj.length ≤ i) :
    stepBodies sqrt G i [] (b :: rest) = none := by
  cases hget : b.traj.get? i with
  | none => simp only [stepBodies, hget]
  | some current =>
    have hacc : accelLoop sqrt G i ([] : List Body).length current 0 Vec2.zero
        ([] ++ b :: rest) = none :=
      accelLoop_bad sqrt G i _ current ([] ++ b :: rest) 0 Vec2.zero (by simpa using hbad)
    simp only [stepBodies, hget, hacc]

/-! ### Structure of the pure extension pass -/

theorem extendFrom_forall₂ (sqrt : ℚ → ℚ) (G : ℚ) (ctx : List (ℚ × SimSnapshot)) (i : ℕ) :
    ∀ (l : List Body) (j : ℕ),
      List.Forall₂ (fun b b' => b'.mass = b.mass ∧ b'.radius = b.radius ∧
          b'.translation = b.translation ∧ ∃ snap, b'.traj = b.traj ++ [snap])
        l (extendFrom sqrt G ctx i j l) := by
  intro l
  induction l with
  | nil => intro j; exact List.Forall₂.nil
  | cons b rest ih =>
    intro j
    exact List.Forall₂.cons ⟨rfl, rfl, rfl, _, rfl⟩ (ih (j + 1))

theorem extendFrom_reads (sqrt : ℚ → ℚ) (G : ℚ) (ctx : List (ℚ × SimSnapshot)) (i : ℕ) :
    ∀ (l : List Body) (j : ℕ), (∀ b ∈ l, i < b.traj.length) →
      ∀ b' ∈ extendFrom sqrt G ctx i j l, i + 1 < b'.traj.length := by
  intro l
  induction l with
  | nil => intro j _ b' hb'; cases hb'
  | cons b rest ih =>
    intro j h b' hb'
    rcases List.mem_cons.mp hb' with rfl | hb''
    · have := h b (List.mem_cons_self b rest)
      simp only [List.length_append, List.length_singleton]
      omega
    · exact ih (j + 1) (fun x hx => h x (List.mem_cons_of_mem b hx)) b' hb''

/-- Composition of two pointwise relations between lists. -/
theorem forall₂_trans {α : Type} {R S T : α → α → Prop}
    (hcomp : ∀ x y z, R x y → S y z → T x z) :
    ∀ {l1 l2 l3 : List α}, List.Forall₂ R l1 l2 → List.Forall₂ S l2 l3 →
      List.Forall₂ T l1 l3 := by
  intro l1 l2 l3 h12
  induction h12 generalizing l3 with
  | nil => intro h23; cases h23; exact List.Forall₂.nil
  | cons hr hrs ih =>
    intro h23
    cases h23 with
    | cons hs hss => exact List.Forall₂.cons (hcomp _ _ _ hr hs) (ih hss)

theorem extendIter_forall₂ (sqrt : ℚ → ℚ) (G : ℚ) :
    ∀ (count i : ℕ) (l : List Body),
      List.Forall₂ (fun b b' => b'.mass = b.mass ∧ b'.radius = b.radius ∧
          b'.translation = b.translation ∧ ∃ t, b'.traj = b.traj ++ t ∧ t.length = count)
        l (extendIter sqrt G i count l) := by
  intro count
  induction count with
  | zero =>
    intro i l
    exact List.forall₂_same.mpr fun b _ => ⟨rfl, rfl, rfl, [], by simp⟩
  | succ n ih =>
    intro i l
    have h1 := extendFrom_forall₂ sqrt G (ctxAt l i) i l 0
    have h2 := ih (i + 1) (extendFrom sqrt G (ctxAt l i) i 0 l)
    exact forall₂_trans
      (fun x y z hxy hyz => by
        obtain ⟨hm1, hr1, ht1, snap, htr1⟩ := hxy
        obtain ⟨hm2, hr2, ht2, t, htr2, hlen⟩ := hyz
        refine ⟨hm2.trans hm1, hr2.trans hr1, ht2.trans ht1, [snap] ++ t, ?_, by simp [hlen]⟩
        rw [htr2, htr1, List.append_assoc])
      h1 h2

theorem extendIter_reads (sqrt : ℚ → ℚ) (G : ℚ) :
    ∀ (count i : ℕ) (l : List Body), (∀ b ∈ l, i < b.traj.length) →
      ∀ b' ∈ extendIter sqrt G i count l, i + count < b'.traj.length := by
  intro count
  induction count with
  | zero => intro i l h b' hb'; simpa using h b' hb'
  | succ n ih =>
    intro i l h b' hb'
    have hmid := extendFrom_reads sqrt G (ctxAt l i) i l 0 h
    have := ih (i + 1) _ hmid b' hb'
    omega

/-- The outer loop of `simulate` succeeds whenever the starting index is in
bounds for every trajectory, and computes the iterated pure extension. -/
theorem simLoop_ok (sqrt : ℚ → ℚ) (G : ℚ) :
    ∀ (count i : ℕ) (bodies : List Body), (∀ b ∈ bodies, i < b.traj.length) →
      simLoop sqrt G (List.range' i count) bodies =
        some (extendIter sqrt G i count bodies) := by
  intro count
  induction count with
  | zero => intro i bodies _; rfl
  | succ n ih =>
    intro i bodies h
    have hstep := stepBodies_ok sqrt G i bodies [] (by simpa using h)
    have hrange : List.range' i (n + 1) = i :: List.range' (i + 1) n := rfl
    rw [hrange]
    simp only [simLoop, List.nil_append] at hstep ⊢
    rw [hstep]
    exact ih (i + 1) _ (extendFrom_reads sqrt G (ctxAt bodies i) i bodies 0 h)

/-- Full characterization of a successful `simulate` call. -/
theorem simulate_char (sqrt : ℚ → ℚ) (s : Sys) (hne : s.bodies ≠ [])
    (hpos : 1 ≤ s.sim.trajectory_pos)
    (hreads : ∀ b ∈ s.bodies, s.sim.trajectory_pos - 1 < b.traj.length) :
    simulate sqrt s =
      some ⟨⟨s.sim.gravitational_const,
             s.sim.trajectory_pos + ((TRAJECTORY_LEN - 1) - (s.sim.trajectory_pos - 1))⟩,
            extendIter sqrt s.sim.gravitational_const (s.sim.trajectory_pos - 1)
              ((TRAJECTORY_LEN - 1) - (s.sim.trajectory_pos - 1)) s.bodies⟩ := by
  have h0 : ¬ s.sim.trajectory_pos = 0 := by omega
  have hne' : s.bodies.isEmpty = false := by
    cases hb : s.bodies with
    | nil => exact absurd hb hne
    | cons x xs => rfl
  simp only [simulate, hne', Bool.false_eq_true, if_false, h0,
    simLoop_ok sqrt s.sim.gravitational_const _ _ s.bodies hreads]

/-! ### Characterizing the playback advance and the invalidation -/

/-- The effect of one successful pop on one body. -/
def popB (b : Body) : Body :=
  { b with translation := b.traj.headI.position, traj := b.traj.tail }

theorem popLoop_ok :
    ∀ l : List Body, (∀ b ∈ l, b.traj ≠ []) → popLoop l = Sum.inr (l.map popB) := by
  intro l
  induction l with
  | nil => intro _; rfl
  | cons b rest ih =>
    intro h
    cases htr : b.traj with
    | nil => exact absurd htr (h b (List.mem_cons_self b rest))
    | cons a t =>
      simp only [popLoop, htr, ih fun x hx => h x (List.mem_cons_of_mem b hx),
        List.map_cons, popB]
      simp [htr]

theorem popLoop_split :
    ∀ (l1 : List Body) (b : Body) (l2 : List Body), (∀ x ∈ l1, x.traj ≠ []) →
      b.traj = [] → popLoop (l1 ++ b :: l2) = Sum.inl (l1.map popB ++ b :: l2) := by
  intro l1
  induction l1 with
  | nil => intro b l2 _ htr; simp [popLoop, htr]
  | cons x l1 ih =>
    intro b l2 h htr
    cases hx : x.traj with
    | nil => exact absurd hx (h x (List.mem_cons_self x l1))
    | cons a t =>
      simp only [List.cons_append, popLoop, hx, List.append_eq]
      rw [ih b l2 (fun y hy => h y (List.mem_cons_of_mem x hy)) htr]
      simp [popB, hx]

theorem update_positions_no_bodies (s : Sys) (h : s.bodies = []) :
    update_positions s = some s := by
  simp [update_positions, h]

theorem update_positions_first_empty (s : Sys) (b : Body) (rest : List Body)
    (hb : s.bodies = b :: rest) (htr : b.traj = []) : update_positions s = some s := by
  have hpop : popLoop (b :: rest) = Sum.inl (b :: rest) := by
    simp [popLoop, htr]
  simp only [update_positions, hb, List.isEmpty_cons, Bool.false_eq_true, if_false, hpop]
  rw [← hb]

theorem update_positions_ok (s : Sys) (hne : s.bodies ≠ [])
    (hpos : 1 ≤ s.sim.trajectory_pos) (h : ∀ b ∈ s.bodies, b.traj ≠ []) :
    update_positions s =
      some ⟨⟨s.sim.gravitational_const, s.sim.trajectory_pos - 1⟩, s.bodies.map popB⟩ := by
  have h0 : ¬ s.sim.trajectory_pos = 0 := by omega
  have hne' : s.bodies.isEmpty = false := by
    cases hb : s.bodies with
    | nil => exact absurd hb hne
    | cons x xs => rfl
  simp only [update_positions, hne', Bool.false_eq_true, if_false, popLoop_ok s.bodies h, h0]

theorem update_positions_split (s : Sys) (l1 : List Body) (b : Body) (l2 : List Body)
    (hb : s.bodies = l1 ++ b :: l2) (h1 : ∀ x ∈ l1, x.traj ≠ []) (htr : b.traj = []) :
    update_positions s = some ⟨s.sim, l1.map popB ++ b :: l2⟩ := by
  have hne' : (l1 ++ b :: l2).isEmpty = false := by cases l1 <;> rfl
  simp only [update_positions, hb, hne', Bool.false_eq_true, if_false,
    popLoop_split l1 b l2 h1 htr]

/-- One body after invalidation: just its front snapshot. -/
def clearB (b : Body) : Body := { b with traj := [b.traj.headI] }

theorem clearLoop_ok :
    ∀ l : List Body, (∀ b ∈ l, b.traj ≠ []) → clearLoop l = some (l.map clearB) := by
  intro l
  induction l with
  | nil => intro _; rfl
  | cons b rest ih =>
    intro h
    cases htr : b.traj with
    | nil => exact absurd htr (h b (List.mem_cons_self b rest))
    | cons a t =>
      simp only [clearLoop, htr, List.head?_cons,
        ih fun x hx => h x (List.mem_cons_of_mem b hx), List.map_cons, clearB]
      simp [htr]

theorem clear_char (s : Sys) (h : ∀ b ∈ s.bodies, b.traj ≠ []) :
    clear_trajectories_on_change s =
      some ⟨⟨s.sim.gravitational_const, 1⟩, s.bodies.map clearB⟩ := by
  simp only [clear_trajectories_on_change, clearLoop_ok s.bodies h]

/-! ### The lockstep invariant -/

/-- The state invariant of the engine: the cursor is between 1 and
`TRAJECTORY_LEN`, and every body's trajectory holds exactly
`trajectory_pos` snapshots (all bodies in lockstep). -/
def StateInv (s : Sys) : Prop :=
  1 ≤ s.sim.trajectory_pos ∧ s.sim.trajectory_pos ≤ TRAJECTORY_LEN ∧
    ∀ b ∈ s.bodies, b.traj.length = s.sim.trajectory_pos

instance (s : Sys) : Decidable (StateInv s) := by
  unfold StateInv; infer_instance

theorem forall₂_mem_right {α β : Type} {R : α → β → Prop} :
    ∀ {l1 : List α} {l2 : List β}, List.Forall₂ R l1 l2 →
      ∀ b ∈ l2, ∃ a ∈ l1, R a b := by
  intro l1 l2 h
  induction h with
  | nil => intro b hb; cases hb
  | cons hr _ ih =>
    intro b hb
    rcases List.mem_cons.mp hb with rfl | hb'
    · exact ⟨_, List.mem_cons_self .., hr⟩
    · obtain ⟨a, ha, har⟩ := ih b hb'
      exact ⟨a, List.mem_cons_of_mem _ ha, har⟩

theorem one_le_TRAJECTORY_LEN : 1 ≤ TRAJECTORY_LEN := by norm_num [TRAJECTORY_LEN]

theorem simulate_preserves (sqrt : ℚ → ℚ) (s : Sys) (hinv : StateInv s) :
    ∃ s', simulate sqrt s = some s' ∧ StateInv s' := by
  obtain ⟨h1, h2, hlock⟩ := hinv
  by_cases hne : s.bodies = []
  · exact ⟨s, by simp [simulate, hne], h1, h2, hlock⟩
  · have hreads : ∀ b ∈ s.bodies, s.sim.trajectory_pos - 1 < b.traj.length := by
      intro b hb; rw [hlock b hb]; omega
    have hL := one_le_TRAJECTORY_LEN
    have hcount : s.sim.trajectory_pos +
        ((TRAJECTORY_LEN - 1) - (s.sim.trajectory_pos - 1)) = TRAJECTORY_LEN := by omega
    refine ⟨_, simulate_char sqrt s hne h1 hreads, ?_, ?_, ?_⟩
    · show 1 ≤ s.sim.trajectory_pos + ((TRAJECTORY_LEN - 1) - (s.sim.trajectory_pos - 1))
      rw [hcount]; exact hL
    · show s.sim.trajectory_pos + ((TRAJECTORY_LEN - 1) - (s.sim.trajectory_pos - 1)) ≤
        TRAJECTORY_LEN
      rw [hcount]
    · intro b' hb'
      obtain ⟨b, hb, -, -, -, t, htr, hlen⟩ :=
        forall₂_mem_right (extendIter_forall₂ sqrt s.sim.gravitational_const _ _ s.bodies) b' hb'
      show b'.traj.length =
        s.sim.trajectory_pos + ((TRAJECTORY_LEN - 1) - (s.sim.trajectory_pos - 1))
      rw [htr, List.length_append, hlock b hb, hlen]

theorem clear_preserves (s : Sys) (hinv : StateInv s) :
    ∃ s', clear_trajectories_on_change s = some s' ∧ StateInv s' ∧
      s'.sim.trajectory_pos = 1 := by
  obtain ⟨h1, -, hlock⟩ := hinv
  have hne : ∀ b ∈ s.bodies, b.traj ≠ [] := by
    intro b hb
    have := hlock b hb
    intro hcon
    rw [hcon] at this
    simp at this
    omega
  refine ⟨_, clear_char s hne, ⟨le_refl 1, one_le_TRAJECTORY_LEN, ?_⟩, rfl⟩
  intro b' hb'
  obtain ⟨b, -, rfl⟩ := List.mem_map.mp hb'
  rfl

theorem advance_preserves (s : Sys) (hinv : StateInv s)
    (h2 : 2 ≤ s.sim.trajectory_pos) :
    ∃ s', update_positions s = some s' ∧ StateInv s' := by
  obtain ⟨h1, hle, hlock⟩ := hinv
  by_cases hne : s.bodies = []
  · exact ⟨s, update_positions_no_bodies s hne, h1, hle, hlock⟩
  · have hnil : ∀ b ∈ s.bodies, b.traj ≠ [] := by
      intro b hb hcon
      have := hlock b hb
      rw [hcon] at this
      simp at this
      omega
    refine ⟨_, update_positions_ok s hne h1 hnil, ?_, ?_, ?_⟩
    · show 1 ≤ s.sim.trajectory_pos - 1; omega
    · show s.sim.trajectory_pos - 1 ≤ TRAJECTORY_LEN; omega
    · intro b' hb'
      obtain ⟨b, hb, rfl⟩ := List.mem_map.mp hb'
      show (popB b).traj.length = s.sim.trajectory_pos - 1
      simp only [popB, List.length_tail, hlock b hb]

/-! ### The two-phase reference update -/

/-- The pure list of next snapshots for the bodies of `l` (at positions
`j, j+1, ...`), computed from the fixed context `ctx`. -/
def nextSnaps (sqrt : ℚ → ℚ) (G : ℚ) (ctx : List (ℚ × SimSnapshot)) (i : ℕ) :
    ℕ → List Body → List SimSnapshot
  | _, [] => []
  | j, b :: rest =>
    integrate sqrt G ctx j (b.traj.getD i dsnap) :: nextSnaps sqrt G ctx i (j + 1) rest

theorem extendFrom_eq_zipWith (sqrt : ℚ → ℚ) (G : ℚ) (ctx : List (ℚ × SimSnapshot)) (i : ℕ) :
    ∀ (l : List Body) (j : ℕ),
      extendFrom sqrt G ctx i j l =
        List.zipWith (fun b snap => { b with traj := b.traj ++ [snap] }) l
          (nextSnaps sqrt G ctx i j l) := by
  intro l
  induction l with
  | nil => intro j; rfl
  | cons b rest ih =>
    intro j
    simp only [extendFrom, nextSnaps, List.zipWith_cons_cons, ih (j + 1)]

theorem computeNext_ok (sqrt : ℚ → ℚ) (G : ℚ) (i : ℕ) (bodies : List Body)
    (hctx : ∀ b ∈ bodies, i < b.traj.length) :
    ∀ (l : List Body) (j : ℕ), (∀ b ∈ l, i < b.traj.length) →
      computeNext sqrt G bodies i j l =
        some (nextSnaps sqrt G (ctxAt bodies i) i j l) := by
  intro l
  induction l with
  | nil => intro j _; rfl
  | cons b rest ih =>
    intro j h
    have hb : i < b.traj.length := h b (List.mem_cons_self b rest)
    have hget : b.traj.get? i = some (b.traj.getD i dsnap) := by
      rw [List.getD_eq_getD_get?, List.get?_eq_get hb]; rfl
    have hacc := accelLoop_ok sqrt G i j (b.traj.getD i dsnap) bodies 0 Vec2.zero hctx
    simp only [computeNext, hget, hacc,
      ih (j + 1) fun x hx => h x (List.mem_cons_of_mem b hx), nextSnaps, integrate, ctxAt]

theorem computeNext_bad (sqrt : ℚ → ℚ) (G : ℚ) (i : ℕ) (x : Body) (rest : List Body)
    (hbad : ∃ b ∈ x :: rest, b.traj.length ≤ i) :
    computeNext sqrt G (x :: rest) i 0 (x :: rest) = none := by
  cases hget : x.traj.get? i with
  | none => simp only [computeNext, hget]
  | some current =>
    have hacc : accelLoop sqrt G i 0 current 0 Vec2.zero (x :: rest) = none :=
      accelLoop_bad sqrt G i 0 current (x :: rest) 0 Vec2.zero hbad
    simp only [computeNext, hget, hacc]

/-! ### The global evolution sequence and windowed states -/

/-- One synchronized step of the whole system on (mass, snapshot) pairs. -/
def stepFrom (sqrt : ℚ → ℚ) (G : ℚ) (ctx : List (ℚ × SimSnapshot)) :
    ℕ → List (ℚ × SimSnapshot) → List (ℚ × SimSnapshot)
  | _, [] => []
  | j, (m, cur) :: rest =>
    (m, integrate sqrt G ctx j cur) :: stepFrom sqrt G ctx (j + 1) rest

def stepAll (sqrt : ℚ → ℚ) (G : ℚ) (ctx : List (ℚ × SimSnapshot)) :
    List (ℚ × SimSnapshot) :=
  stepFrom sqrt G ctx 0 ctx

/-- The generation-g states of all bodies, iterating the synchronized step
from the initial context `C0`. -/
def evolve (sqrt : ℚ → ℚ) (G : ℚ) (C0 : List (ℚ × SimSnapshot)) : ℕ → List (ℚ × SimSnapshot)
  | 0 => C0
  | g + 1 => stepAll sqrt G (evolve sqrt G C0 g)

def pdflt : ℚ × SimSnapshot := (0, dsnap)

/-- Body j's snapshot at generation g. -/
def genSnap (sqrt : ℚ → ℚ) (G : ℚ) (C0 : List (ℚ × SimSnapshot)) (g j : ℕ) : SimSnapshot :=
  ((evolve sqrt G C0 g).getD j pdflt).2

/-- Body j's trajectory when it holds exactly generations `c .. c + L - 1`. -/
def windowTraj (sqrt : ℚ → ℚ) (G : ℚ) (C0 : List (ℚ × SimSnapshot)) (c L j : ℕ) :
    List SimSnapshot :=
  (List.range' c L).map fun g => genSnap sqrt G C0 g j

/-- The snapshots a fully successful advance delivers when the window heads
sit at generation g. -/
def gensDelivered (sqrt : ℚ → ℚ) (G : ℚ) (C0 : List (ℚ × SimSnapshot)) (g : ℕ) :
    List SimSnapshot :=
  (List.range C0.length).map fun j => genSnap sqrt G C0 g j

/-- A body list whose j-th member has the mass of `C0`'s j-th entry and
holds exactly the window of generations `c .. c + L - 1`. -/
def IsWindow (sqrt : ℚ → ℚ) (G : ℚ) (C0 : List (ℚ × SimSnapshot)) (c L : ℕ)
    (bodies : List Body) : Prop :=
  bodies.length = C0.length ∧
    ∀ j b, bodies.get? j = some b →
      b.mass = ((C0.get? j).getD pdflt).1 ∧ b.traj = windowTraj sqrt G C0 c L j

theorem range'_get?_one (s : ℕ) {m n : ℕ} (h : m < n) :
    (List.range' s n).get? m = some (s + m) := by
  simpa using List.get?_range' s 1 h

theorem windowTraj_length (sqrt : ℚ → ℚ) (G : ℚ) (C0 : List (ℚ × SimSnapshot)) (c L j : ℕ) :
    (windowTraj sqrt G C0 c L j).length = L := by
  simp [windowTraj]

theorem stepFrom_get? (sqrt : ℚ → ℚ) (G : ℚ) (ctx : List (ℚ × SimSnapshot)) :
    ∀ (l : List (ℚ × SimSnapshot)) (j t : ℕ),
      (stepFrom sqrt G ctx j l).get? t =
        (l.get? t).map fun p => (p.1, integrate sqrt G ctx (j + t) p.2) := by
  intro l
  induction l with
  | nil => intro j t; rfl
  | cons p rest ih =>
    intro j t
    cases p with
    | mk m cur =>
      cases t with
      | zero => rfl
      | succ t =>
        simp only [stepFrom, List.get?_cons_succ, ih (j + 1) t]
        have : j + 1 + t = j + (t + 1) := by omega
        rw [this]

theorem stepFrom_length (sqrt : ℚ → ℚ) (G : ℚ) (ctx : List (ℚ × SimSnapshot)) :
    ∀ (l : List (ℚ × SimSnapshot)) (j : ℕ), (stepFrom sqrt G ctx j l).length = l.length := by
  intro l
  induction l with
  | nil => intro j; rfl
  | cons p rest ih =>
    intro j
    cases p with
    | mk m cur => simp only [stepFrom, List.length_cons, ih (j + 1)]

theorem evolve_length (sqrt : ℚ → ℚ) (G : ℚ) (C0 : List (ℚ × SimSnapshot)) :
    ∀ g : ℕ, (evolve sqrt G C0 g).length = C0.length := by
  intro g
  induction g with
  | zero => rfl
  | succ g ih =>
    show (stepAll sqrt G (evolve sqrt G C0 g)).length = C0.length
    rw [stepAll, stepFrom_length, ih]

theorem evolve_fst (sqrt : ℚ → ℚ) (G : ℚ) (C0 : List (ℚ × SimSnapshot)) :
    ∀ (g j : ℕ), ((evolve sqrt G C0 g).get? j).map Prod.fst = (C0.get? j).map Prod.fst := by
  intro g
  induction g with
  | zero => intro j; rfl
  | succ g ih =>
    intro j
    show ((stepAll sqrt G (evolve sqrt G C0 g)).get? j).map Prod.fst = _
    rw [stepAll, stepFrom_get?]
    cases h : (evolve sqrt G C0 g).get? j with
    | none => rw [← ih j, h]; rfl
    | some p => rw [← ih j, h]; rfl

theorem genSnap_succ (sqrt : ℚ → ℚ) (G : ℚ) (C0 : List (ℚ × SimSnapshot)) (g j : ℕ)
    (hj : j < C0.length) :
    genSnap sqrt G C0 (g + 1) j =
      integrate sqrt G (evolve sqrt G C0 g) j (genSnap sqrt G C0 g j) := by
  have hj' : j < (evolve sqrt G C0 g).length := by rw [evolve_length]; exact hj
  show ((evolve sqrt G C0 (g + 1)).getD j pdflt).2 = _
  have he : evolve sqrt G C0 (g + 1) = stepAll sqrt G (evolve sqrt G C0 g) := rfl
  rw [he, List.getD_eq_getD_get?, stepAll, stepFrom_get?, List.get?_eq_get hj']
  simp only [Option.map_some', Option.getD_some, Nat.zero_add]
  congr 1
  rw [genSnap, List.getD_eq_getD_get?, List.get?_eq_get hj', Option.getD_some]

theorem extendFrom_get? (sqrt : ℚ → ℚ) (G : ℚ) (ctx : List (ℚ × SimSnapshot)) (i : ℕ) :
    ∀ (l : List Body) (j t : ℕ),
      (extendFrom sqrt G ctx i j l).get? t =
        (l.get? t).map fun b =>
          { b with traj := b.traj ++ [integrate sqrt G ctx (j + t) (b.traj.getD i dsnap)] } := by
  intro l
  induction l with
  | nil => intro j t; rfl
  | cons b rest ih =>
    intro j t
    cases t with
    | zero => rfl
    | succ t =>
      simp only [extendFrom, List.get?_cons_succ, ih (j + 1) t]
      have : j + 1 + t = j + (t + 1) := by omega
      rw [this]

theorem extendFrom_length (sqrt : ℚ → ℚ) (G : ℚ) (ctx : List (ℚ × SimSnapshot)) (i : ℕ) :
    ∀ (l : List Body) (j : ℕ), (extendFrom sqrt G ctx i j l).length = l.length := by
  intro l
  induction l with
  | nil => intro j; rfl
  | cons b rest ih => intro j; simp only [extendFrom, List.length_cons, ih (j + 1)]

theorem window_lengths {sqrt : ℚ → ℚ} {G : ℚ} {C0 : List (ℚ × SimSnapshot)} {c L : ℕ}
    {bodies : List Body} (hW : IsWindow sqrt G C0 c L bodies) :
    ∀ b ∈ bodies, b.traj.length = L := by
  intro b hb
  obtain ⟨j, hj⟩ := List.mem_iff_get?.mp hb
  rw [(hW.2 j b hj).2, windowTraj_length]

theorem ctxAt_window {sqrt : ℚ → ℚ} {G : ℚ} {C0 : List (ℚ × SimSnapshot)} {c L : ℕ}
    {bodies : List Body} (hW : IsWindow sqrt G C0 c L bodies) {i : ℕ} (hi : i < L) :
    ctxAt bodies i = evolve sqrt G C0 (c + i) := by
  apply List.ext_get?
  intro j
  rw [ctxAt, List.get?_map]
  cases hj : bodies.get? j with
  | none =>
    have hlen : bodies.length ≤ j := List.get?_eq_none.mp hj
    have : (evolve sqrt G C0 (c + i)).length ≤ j := by
      rw [evolve_length, ← hW.1]; exact hlen
    rw [List.get?_eq_none.mpr this]
    rfl
  | some b =>
    obtain ⟨hmass, htraj⟩ := hW.2 j b hj
    have hjlt : j < bodies.length := by
      by_contra hcon
      rw [List.get?_eq_none.mpr (le_of_not_lt hcon)] at hj
      cases hj
    have hjC : j < C0.length := hW.1 ▸ hjlt
    have hjE : j < (evolve sqrt G C0 (c + i)).length := by rw [evolve_length]; exact hjC
    rw [List.get?_eq_get hjE]
    have hgd : b.traj.getD i dsnap = genSnap sqrt G C0 (c + i) j := by
      rw [htraj, windowTraj, List.getD_eq_getD_get?, List.get?_map, range'_get?_one c hi]
      rfl
    have hfst : ((evolve sqrt G C0 (c + i)).get ⟨j, hjE⟩).1 = ((C0.get? j).getD pdflt).1 := by
      have := evolve_fst sqrt G C0 (c + i) j
      rw [List.get?_eq_get hjE] at this
      cases hC : C0.get? j with
      | none => rw [hC] at this; cases this
      | some p0 =>
        rw [hC] at this
        simp only [Option.map_some', Option.some.injEq] at this
        simpa using this
    have hsnd : ((evolve sqrt G C0 (c + i)).get ⟨j, hjE⟩).2 = genSnap sqrt G C0 (c + i) j := by
      rw [genSnap, List.getD_eq_getD_get?, List.get?_eq_get hjE, Option.getD_some]
    simp only [Option.map_some', Option.some.injEq]
    apply Prod.ext
    · rw [hmass, hfst]
    · rw [hgd, hsnd]

theorem extendFrom_window {sqrt : ℚ → ℚ} {G : ℚ} {C0 : List (ℚ × SimSnapshot)} {c L : ℕ}
    {bodies : List Body} (hW : IsWindow sqrt G C0 c L bodies) (hL : 1 ≤ L) :
    IsWindow sqrt G C0 c (L + 1)
      (extendFrom sqrt G (ctxAt bodies (L - 1)) (L - 1) 0 bodies) := by
  have hiL : L - 1 < L := by omega
  have hctx : ctxAt bodies (L - 1) = evolve sqrt G C0 (c + (L - 1)) := ctxAt_window hW hiL
  constructor
  · rw [extendFrom_length, hW.1]
  · intro j b' hb'
    rw [extendFrom_get?] at hb'
    cases hj : bodies.get? j with
    | none => rw [hj] at hb'; cases hb'
    | some b =>
      rw [hj, Option.map_some', Option.some.injEq] at hb'
      obtain ⟨hmass, htraj⟩ := hW.2 j b hj
      have hjlt : j < bodies.length := by
        by_contra hcon
        rw [List.get?_eq_none.mpr (le_of_not_lt hcon)] at hj
        cases hj
      have hjC : j < C0.length := hW.1 ▸ hjlt
      have hgd : b.traj.getD (L - 1) dsnap = genSnap sqrt G C0 (c + (L - 1)) j := by
        rw [htraj, windowTraj, List.getD_eq_getD_get?, List.get?_map, range'_get?_one c hiL]
        rfl
      constructor
      · rw [← hb']; exact hmass
      · rw [← hb']
        show b.traj ++ [integrate sqrt G (ctxAt bodies (L - 1)) (0 + j) (b.traj.getD (L - 1) dsnap)] =
          windowTraj sqrt G C0 c (L + 1) j
        rw [Nat.zero_add, hctx, hgd, ← genSnap_succ sqrt G C0 (c + (L - 1)) j hjC, htraj]
        have harith : c + (L - 1) + 1 = c + 1 * L := by omega
        rw [windowTraj, windowTraj, List.range'_concat, List.map_append, harith]
        rfl

theorem extendIter_window (sqrt : ℚ → ℚ) (G : ℚ) (C0 : List (ℚ × SimSnapshot)) :
    ∀ (count : ℕ) {c L : ℕ} {bodies : List Body}, 1 ≤ L →
      IsWindow sqrt G C0 c L bodies →
      IsWindow sqrt G C0 c (L + count) (extendIter sqrt G (L - 1) count bodies) := by
  intro count
  induction count with
  | zero => intro c L bodies _ hW; exact hW
  | succ n ih =>
    intro c L bodies hL hW
    have hW' := extendFrom_window hW hL
    have hstep : extendIter sqrt G (L - 1) (n + 1) bodies =
        extendIter sqrt G ((L + 1) - 1) n
          (extendFrom sqrt G (ctxAt bodies (L - 1)) (L - 1) 0 bodies) := by
      show extendIter sqrt G (L - 1 + 1) n _ = _
      congr 1
      omega
    rw [hstep]
    have := ih (c := c) (L := L + 1) (by omega) hW'
    have harith : L + 1 + n = L + (n + 1) := by omega
    rw [harith] at this
    exact this

/-- A `simulate` call on a windowed state refills the window to the full
horizon without touching the generations already stored. -/
theorem simulate_window {sqrt : ℚ → ℚ} {C0 : List (ℚ × SimSnapshot)} {c : ℕ} {s : Sys}
    (hC0 : C0 ≠ []) (hW : IsWindow sqrt s.sim.gravitational_const C0 c
      s.sim.trajectory_pos s.bodies)
    (hpos : 1 ≤ s.sim.trajectory_pos) (hle : s.sim.trajectory_pos ≤ TRAJECTORY_LEN) :
    ∃ bodies', simulate sqrt s = some ⟨⟨s.sim.gravitational_const, TRAJECTORY_LEN⟩, bodies'⟩ ∧
      IsWindow sqrt s.sim.gravitational_const C0 c TRAJECTORY_LEN bodies' := by
  have hL := one_le_TRAJECTORY_LEN
  have hne : s.bodies ≠ [] := by
    intro hcon
    apply hC0
    have := hW.1
    rw [hcon] at this
    exact List.length_eq_zero.mp this.symm
  have hreads : ∀ b ∈ s.bodies, s.sim.trajectory_pos - 1 < b.traj.length := by
    intro b hb
    rw [window_lengths hW b hb]
    omega
  have hcount : s.sim.trajectory_pos +
      ((TRAJECTORY_LEN - 1) - (s.sim.trajectory_pos - 1)) = TRAJECTORY_LEN := by omega
  have hwin := extendIter_window sqrt s.sim.gravitational_const C0
    ((TRAJECTORY_LEN - 1) - (s.sim.trajectory_pos - 1)) hpos hW
  rw [hcount] at hwin
  refine ⟨extendIter sqrt s.sim.gravitational_const (s.sim.trajectory_pos - 1)
      ((TRAJECTORY_LEN - 1) - (s.sim.trajectory_pos - 1)) s.bodies, ?_, hwin⟩
  rw [simulate_char sqrt s hne hpos hreads, hcount]

/-! ### Instrumented runs of the three systems -/

/-- The snapshots a call to `update_positions` delivers (writes back) when
the pop loop runs to completion: the former front snapshot of every body.
When the system warns and no-ops ("Nothing to update" or an empty
trajectory hit before all bodies were popped) nothing is delivered. -/
def deliveredBy (s : Sys) : Option (List SimSnapshot) :=
  if s.bodies.isEmpty then none
  else if s.bodies.all (fun b => !b.traj.isEmpty) then
    some (s.bodies.map fun b => b.traj.headI)
  else none

inductive Op
  | precompute
  | advance
  | invalidate
deriving DecidableEq

/-- One scheduler-driven call of a system: `precompute` is `simulate`,
`advance` is `update_positions`, `invalidate` is
`clear_trajectories_on_change` for one `ClearTrajectories` event. -/
def applyOp (sqrt : ℚ → ℚ) (s : Sys) : Op → Option Sys
  | Op.precompute => simulate sqrt s
  | Op.advance => update_positions s
  | Op.invalidate => clear_trajectories_on_change s

/-- Run a sequence of system calls, logging for every advance the
snapshots it delivered (`none` when it warned and delivered nothing).
A panic anywhere aborts the whole run. -/
def runOps (sqrt : ℚ → ℚ) : List Op → Sys → Option (Sys × List (Option (List SimSnapshot)))
  | [], s => some (s, [])
  | Op.precompute :: ops, s =>
    match simulate sqrt s with
    | none => none
    | some s' => runOps sqrt ops s'
  | Op.invalidate :: ops, s =>
    match clear_trajectories_on_change s with
    | none => none
    | some s' => runOps sqrt ops s'
  | Op.advance :: ops, s =>
    match update_positions s with
    | none => none
    | some s' =>
      match runOps sqrt ops s' with
      | none => none
      | some (s'', log) => some (s'', deliveredBy s :: log)

/-- A no-edit run state: gravitational constant fixed, cursor within the
horizon, and all bodies holding exactly the window of generations starting
at c. -/
def RunInv (sqrt : ℚ → ℚ) (G : ℚ) (C0 : List (ℚ × SimSnapshot)) (c : ℕ) (s : Sys) : Prop :=
  s.sim.gravitational_const = G ∧ s.sim.trajectory_pos ≤ TRAJECTORY_LEN ∧
    IsWindow sqrt G C0 c s.sim.trajectory_pos s.bodies

theorem advance_window {sqrt : ℚ → ℚ} {G : ℚ} {C0 : List (ℚ × SimSnapshot)} {c : ℕ} {s : Sys}
    (hC0 : C0 ≠ []) (hG : s.sim.gravitational_const = G)
    (hW : IsWindow sqrt G C0 c s.sim.trajectory_pos s.bodies)
    (hpos : 1 ≤ s.sim.trajectory_pos) :
    update_positions s = some ⟨⟨G, s.sim.trajectory_pos - 1⟩, s.bodies.map popB⟩ ∧
      deliveredBy s = some (gensDelivered sqrt G C0 c) ∧
      IsWindow sqrt G C0 (c + 1) (s.sim.trajectory_pos - 1) (s.bodies.map popB) := by
  have hne : s.bodies ≠ [] := by
    intro hcon
    apply hC0
    have := hW.1
    rw [hcon] at this
    exact List.length_eq_zero.mp this.symm
  have hnil : ∀ b ∈ s.bodies, b.traj ≠ [] := by
    intro b hb hcon
    have := window_lengths hW b hb
    rw [hcon] at this
    simp at this
    omega
  have hheads : ∀ j b, s.bodies.get? j = some b → b.traj.headI = genSnap sqrt G C0 c j := by
    intro j b hj
    have htraj := (hW.2 j b hj).2
    have hLpos : s.sim.trajectory_pos = (s.sim.trajectory_pos - 1) + 1 := by omega
    rw [htraj, windowTraj, hLpos, List.range'_succ, List.map_cons, List.headI_cons]
  refine ⟨?_, ?_, ?_, ?_⟩
  · rw [update_positions_ok s hne hpos hnil, hG]
  · have hne' : s.bodies.isEmpty = false := by
      cases hb : s.bodies with
      | nil => exact absurd hb hne
      | cons x xs => rfl
    have hall : s.bodies.all (fun b => !b.traj.isEmpty) = true := by
      rw [List.all_eq_true]
      intro b hb
      have := hnil b hb
      cases htr : b.traj with
      | nil => exact absurd htr this
      | cons a t => rfl
    rw [deliveredBy, hne', hall]
    simp only [Bool.false_eq_true, if_false, if_true]
    congr 1
    apply List.ext_get?
    intro j
    rw [List.get?_map, gensDelivered, List.get?_map]
    cases hj : s.bodies.get? j with
    | none =>
      have hlen : s.bodies.length ≤ j := List.get?_eq_none.mp hj
      rw [List.get?_eq_none.mpr (by simpa [hW.1] using hlen)]
      rfl
    | some b =>
      have hjlt : j < s.bodies.length := by
        by_contra hcon
        rw [List.get?_eq_none.mpr (le_of_not_lt hcon)] at hj
        cases hj
      rw [List.get?_eq_get (by simpa [← hW.1] using hjlt : j < (List.range C0.length).length)]
      simp only [Option.map_some', List.get_range, Option.some.injEq]
      exact hheads j b hj
  · rw [List.length_map, hW.1]
  · intro j b' hb'
    rw [List.get?_map] at hb'
    cases hj : s.bodies.get? j with
    | none => rw [hj] at hb'; cases hb'
    | some b =>
      rw [hj, Option.map_some', Option.some.injEq] at hb'
      obtain ⟨hmass, htraj⟩ := hW.2 j b hj
      constructor
      · rw [← hb']; exact hmass
      · rw [← hb']
        show (popB b).traj = _
        have hLpos : s.sim.trajectory_pos = (s.sim.trajectory_pos - 1) + 1 := by omega
        rw [popB]
        show b.traj.tail = _
        rw [htraj, windowTraj, hLpos, List.range'_succ, List.map_cons, List.tail_cons]
        rfl

theorem advance_starved {sqrt : ℚ → ℚ} {G : ℚ} {C0 : List (ℚ × SimSnapshot)} {c : ℕ} {s : Sys}
    (hC0 : C0 ≠ []) (hW : IsWindow sqrt G C0 c s.sim.trajectory_pos s.bodies)
    (hpos : s.sim.trajectory_pos = 0) :
    update_positions s = some s ∧ deliveredBy s = none := by
  cases hb : s.bodies with
  | nil =>
    exfalso
    apply hC0
    have := hW.1
    rw [hb] at this
    exact List.length_eq_zero.mp this.symm
  | cons b rest =>
    have hj : s.bodies.get? 0 = some b := by rw [hb]; rfl
    have htraj := (hW.2 0 b hj).2
    rw [hpos] at htraj
    have hbtr : b.traj = [] := by rw [htraj]; rfl
    refine ⟨update_positions_first_empty s b rest hb hbtr, ?_⟩
    rw [deliveredBy, hb]
    have : (b :: rest).all (fun x => !x.traj.isEmpty) = false := by
      simp [hbtr]
    rw [this]
    rfl

/-- Once the horizon is exhausted (`trajectory_pos = 0`, all windows
empty), a no-edit run that completes can only contain non-delivering
advances: a precompute would panic on the cursor underflow. -/
theorem run_starved (sqrt : ℚ → ℚ) (G : ℚ) (C0 : List (ℚ × SimSnapshot)) (hC0 : C0 ≠ []) :
    ∀ ops : List Op, Op.invalidate ∉ ops → ∀ (c : ℕ) (s s' : Sys)
      (log : List (Option (List SimSnapshot))),
      RunInv sqrt G C0 c s → s.sim.trajectory_pos = 0 →
      runOps sqrt ops s = some (s', log) → ∀ e ∈ log, e = none := by
  intro ops
  induction ops with
  | nil =>
    intro _ c s s' log _ _ hrun e he
    simp only [runOps, Option.some.injEq, Prod.mk.injEq] at hrun
    rw [← hrun.2] at he
    cases he
  | cons op ops ih =>
    intro hni c s s' log hInv hpos hrun e he
    have hniops : Op.invalidate ∉ ops := fun h => hni (List.mem_cons_of_mem _ h)
    obtain ⟨hG, hle, hW⟩ := hInv
    have hne : s.bodies ≠ [] := by
      intro hcon
      apply hC0
      have := hW.1
      rw [hcon] at this
      exact List.length_eq_zero.mp this.symm
    cases op with
    | invalidate => exact absurd (List.mem_cons_self ..) hni
    | precompute =>
      have hsim : simulate sqrt s = none := by
        have hne' : s.bodies.isEmpty = false := by
          cases hb : s.bodies with
          | nil => exact absurd hb hne
          | cons x xs => rfl
        simp [simulate, hne', hpos]
      simp only [runOps, hsim] at hrun
      cases hrun
    | advance =>
      obtain ⟨hupd, hdel⟩ := advance_starved hC0 hW hpos
      simp only [runOps, hupd] at hrun
      cases hrest : runOps sqrt ops s with
      | none => rw [hrest] at hrun; cases hrun
      | some r =>
        cases r with
        | mk s'' log' =>
          rw [hrest] at hrun
          simp only [Option.some.injEq, Prod.mk.injEq] at hrun
          rw [← hrun.2, hdel] at he
          rcases List.mem_cons.mp he with rfl | he'
          · rfl
          · exact ih hniops c s s'' log' ⟨hG, hle, hW⟩ hpos hrest e he'

/-- In any completed no-edit run from a windowed state, the k-th advance,
when it delivers at all, delivers exactly the generation-(c+k) snapshots:
delivering advances consume generations in order, and after a starved
advance no later advance can deliver. -/
theorem run_delivers (sqrt : ℚ → ℚ) (G : ℚ) (C0 : List (ℚ × SimSnapshot)) (hC0 : C0 ≠ []) :
    ∀ ops : List Op, Op.invalidate ∉ ops → ∀ (c : ℕ) (s s' : Sys)
      (log : List (Option (List SimSnapshot))),
      RunInv sqrt G C0 c s → runOps sqrt ops s = some (s', log) →
      ∀ (k : ℕ) (d : List SimSnapshot), log.get? k = some (some d) →
        d = gensDelivered sqrt G C0 (c + k) := by
  intro ops
  induction ops with
  | nil =>
    intro _ c s s' log _ hrun k d hk
    simp only [runOps, Option.some.injEq, Prod.mk.injEq] at hrun
    rw [← hrun.2] at hk
    cases hk
  | cons op ops ih =>
    intro hni c s s' log hInv hrun k d hk
    have hniops : Op.invalidate ∉ ops := fun h => hni (List.mem_cons_of_mem _ h)
    obtain ⟨hG, hle, hW⟩ := hInv
    have hne : s.bodies ≠ [] := by
      intro hcon
      apply hC0
      have := hW.1
      rw [hcon] at this
      exact List.length_eq_zero.mp this.symm
    cases op with
    | invalidate => exact absurd (List.mem_cons_self ..) hni
    | precompute =>
      by_cases hpos : 1 ≤ s.sim.trajectory_pos
      · obtain ⟨bodies', hsim, hwin⟩ := simulate_window hC0 (hG ▸ hW) hpos hle
        simp only [runOps, hsim] at hrun
        refine ih hniops c _ s' log ⟨?_, le_refl _, ?_⟩ hrun k d hk
        · exact hG
        · rw [hG] at hwin; exact hwin
      · have hpos0 : s.sim.trajectory_pos = 0 := by omega
        have hsim : simulate sqrt s = none := by
          have hne' : s.bodies.isEmpty = false := by
            cases hb : s.bodies with
            | nil => exact absurd hb hne
            | cons x xs => rfl
          simp [simulate, hne', hpos0]
        simp only [runOps, hsim] at hrun
        cases hrun
    | advance =>
      by_cases hpos : 1 ≤ s.sim.trajectory_pos
      · obtain ⟨hupd, hdel, hwin⟩ := advance_window hC0 hG hW hpos
        simp only [runOps, hupd] at hrun
        cases hrest : runOps sqrt ops ⟨⟨G, s.sim.trajectory_pos - 1⟩, s.bodies.map popB⟩ with
        | none => rw [hrest] at hrun; cases hrun
        | some r =>
          cases r with
          | mk s'' log' =>
            rw [hrest] at hrun
            simp only [Option.some.injEq, Prod.mk.injEq] at hrun
            rw [← hrun.2, hdel] at hk
            cases k with
            | zero =>
              simp only [List.get?_cons_zero, Option.some.injEq] at hk
              rw [← hk, Nat.add_zero]
            | succ k =>
              rw [List.get?_cons_succ] at hk
              have := ih hniops (c + 1) _ s'' log'
                ⟨rfl, by show s.sim.trajectory_pos - 1 ≤ TRAJECTORY_LEN; omega, hwin⟩ hrest k d hk
              rw [this]
              congr 1
              omega
      · have hpos0 : s.sim.trajectory_pos = 0 := by omega
        obtain ⟨hupd, hdel⟩ := advance_starved hC0 hW hpos0
        simp only [runOps, hupd] at hrun
        cases hrest : runOps sqrt ops s with
        | none => rw [hrest] at hrun; cases hrun
        | some r =>
          cases r with
          | mk s'' log' =>
            rw [hrest] at hrun
            simp only [Option.some.injEq, Prod.mk.injEq] at hrun
            rw [← hrun.2, hdel] at hk
            cases k with
            | zero => cases hk
            | succ k =>
              rw [List.get?_cons_succ] at hk
              have hmem : some d ∈ log' := List.get?_mem hk
              have := run_starved sqrt G C0 hC0 ops hniops c s s'' log'
                ⟨hG, hle, hW⟩ hpos0 hrest (some d) hmem
              cases this

/-! ### Concrete states -/

/-- A concrete square-root routine, correct at the only point the concrete
scenarios evaluate it. -/
def sqrtFn : ℚ → ℚ := fun q => if q = 100 then 10 else 0

/-- One body of mass 1 at rest at the origin whose trajectory holds `n`
copies of the all-zero snapshot, with `trajectory_pos = p` and `G = 1`. -/
def oneBody (p n : ℕ) : Sys :=
  ⟨⟨1, p⟩, [⟨1, 1, Vec2.zero, List.replicate n dsnap⟩]⟩

theorem getD_replicate {α : Type} (a d : α) :
    ∀ (n i : ℕ), i < n → (List.replicate n a).getD i d = a := by
  intro n
  induction n with
  | zero => intro i hi; omega
  | succ n ih =>
    intro i hi
    cases i with
    | zero => rfl
    | succ i =>
      rw [List.replicate_succ]
      show (List.replicate n a).getD i d = a
      exact ih i (by omega)

/-- A body alone at rest stays at rest: its Euler step is the zero snapshot
again (the self-contribution is skipped, so the acceleration is zero). -/
theorem integrate_rest (sqrt : ℚ → ℚ) (G m : ℚ) :
    integrate sqrt G [(m, dsnap)] 0 dsnap = dsnap := by
  have hacc : accelPure sqrt G 0 dsnap 0 Vec2.zero [(m, dsnap)] = Vec2.zero := rfl
  simp only [integrate]
  rw [hacc]
  simp [dsnap, Vec2.zero, Vec2.add_def, Vec2.mulQ_def]

theorem extendIter_rest (sqrt : ℚ → ℚ) (G m r : ℚ) (t : Vec2) :
    ∀ (count i L : ℕ), i < L →
      extendIter sqrt G i count [⟨m, r, t, List.replicate L dsnap⟩] =
        [⟨m, r, t, List.replicate (L + count) dsnap⟩] := by
  intro count
  induction count with
  | zero => intro i L _; rfl
  | succ n ih =>
    intro i L hi
    have hctx : ctxAt [(⟨m, r, t, List.replicate L dsnap⟩ : Body)] i = [(m, dsnap)] := by
      simp only [ctxAt, List.map_cons, List.map_nil]
      rw [getD_replicate dsnap dsnap L i hi]
    show extendIter sqrt G (i + 1) n
        (extendFrom sqrt G (ctxAt [⟨m, r, t, List.replicate L dsnap⟩] i) i 0
          [⟨m, r, t, List.replicate L dsnap⟩]) = _
    rw [hctx]
    have hext : extendFrom sqrt G [(m, dsnap)] i 0 [(⟨m, r, t, List.replicate L dsnap⟩ : Body)] =
        [⟨m, r, t, List.replicate (L + 1) dsnap⟩] := by
      simp only [extendFrom]
      rw [getD_replicate dsnap dsnap L i hi, integrate_rest, ← List.replicate_succ' L dsnap]
    rw [hext, ih (i + 1) (L + 1) (by omega)]
    have : L + 1 + n = L + (n + 1) := by omega
    rw [this]

theorem TRAJECTORY_LEN_succ : TRAJECTORY_LEN = 11999 + 1 := by norm_num [TRAJECTORY_LEN]

/-- `simulate` on the fresh one-body-at-rest state fills the horizon with
zero snapshots. -/
theorem simulate_oneBody (sqrt : ℚ → ℚ) :
    simulate sqrt (oneBody 1 1) = some (oneBody TRAJECTORY_LEN TRAJECTORY_LEN) := by
  have hchar := simulate_char sqrt (oneBody 1 1) (by simp [oneBody]) (le_refl 1)
    (by intro b hb; simp only [oneBody] at hb; rcases List.mem_singleton.mp hb with rfl; simp [oneBody])
  rw [hchar]
  have hc : (TRAJECTORY_LEN - 1) - (1 - 1) = 11999 := by norm_num [TRAJECTORY_LEN]
  show some (Sys.mk ⟨1, 1 + ((TRAJECTORY_LEN - 1) - (1 - 1))⟩
      (extendIter sqrt 1 (1 - 1) ((TRAJECTORY_LEN - 1) - (1 - 1))
        [⟨1, 1, Vec2.zero, List.replicate 1 dsnap⟩])) =
    some (oneBody TRAJECTORY_LEN TRAJECTORY_LEN)
  rw [hc]
  show some (Sys.mk ⟨1, 1 + 11999⟩
      (extendIter sqrt 1 0 11999 [⟨1, 1, Vec2.zero, List.replicate 1 dsnap⟩])) =
    some (oneBody TRAJECTORY_LEN TRAJECTORY_LEN)
  rw [extendIter_rest sqrt 1 1 1 Vec2.zero 11999 0 1 (by omega)]
  norm_num [oneBody, TRAJECTORY_LEN]

/-- A playback advance on the one-body-at-rest state with a non-trivial
window: pops the head and delivers the zero snapshot. -/
theorem advance_oneBody (p n : ℕ) (hp : 1 ≤ p) :
    update_positions (oneBody p (n + 1)) = some (oneBody (p - 1) n) ∧
      deliveredBy (oneBody p (n + 1)) = some [dsnap] := by
  have hok := update_positions_ok (oneBody p (n + 1)) (by simp [oneBody]) hp
    (by intro b hb; rcases List.mem_singleton.mp hb with rfl; simp [List.replicate_succ])
  constructor
  · rw [hok]
    show some (Sys.mk ⟨1, p - 1⟩
        (List.map popB [⟨1, 1, Vec2.zero, List.replicate (n + 1) dsnap⟩])) =
      some (oneBody (p - 1) n)
    simp only [List.map_cons, List.map_nil, popB, List.replicate_succ, List.headI_cons,
      List.tail_cons]
    rfl
  · simp [deliveredBy, oneBody, List.replicate_succ]

/-- Invalidation on the one-body-at-rest state resets it to the fresh
single-snapshot state. -/
theorem clear_oneBody (p n : ℕ) :
    clear_trajectories_on_change (oneBody p (n + 1)) = some (oneBody 1 1) := by
  have hch := clear_char (oneBody p (n + 1))
    (by intro b hb; rcases List.mem_singleton.mp hb with rfl; simp [List.replicate_succ])
  rw [hch]
  show some (Sys.mk ⟨1, 1⟩
      (List.map clearB [⟨1, 1, Vec2.zero, List.replicate (n + 1) dsnap⟩])) =
    some (oneBody 1 1)
  simp only [List.map_cons, List.map_nil, clearB, List.replicate_succ, List.headI_cons]
  rfl

/-! ### Remaining shared helpers -/

def dbody : Body := ⟨0, 0, Vec2.zero, []⟩

theorem forall₂_map_self {α β : Type} (f : α → β) :
    ∀ l : List α, List.Forall₂ (fun a b => b = f a) l (l.map f) := by
  intro l
  induction l with
  | nil => exact List.Forall₂.nil
  | cons a rest ih => exact List.Forall₂.cons rfl ih

theorem forall₂_imp_mem {α β : Type} {R S : α → β → Prop} :
    ∀ {l1 : List α} {l2 : List β}, List.Forall₂ R l1 l2 →
      (∀ a ∈ l1, ∀ b, R a b → S a b) → List.Forall₂ S l1 l2 := by
  intro l1 l2 h
  induction h with
  | nil => intro _; exact List.Forall₂.nil
  | cons hr hrs ih =>
    intro himp
    exact List.Forall₂.cons (himp _ (List.mem_cons_self ..) _ hr)
      (ih fun a ha b hab => himp a (List.mem_cons_of_mem _ ha) b hab)

/-- The full lockstep characterization of a `simulate` call: it refills the
horizon to `TRAJECTORY_LEN`, appending `TRAJECTORY_LEN - trajectory_pos`
snapshots to every trajectory and leaving all stored prefixes (and every
other field) untouched; when the horizon is already full nothing changes. -/
theorem simulate_lockstep (sqrt : ℚ → ℚ) (s : Sys) (hne : s.bodies ≠ [])
    (hlock : ∀ b ∈ s.bodies, b.traj.length = s.sim.trajectory_pos)
    (h1 : 1 ≤ s.sim.trajectory_pos) (h2 : s.sim.trajectory_pos ≤ TRAJECTORY_LEN) :
    ∃ s', simulate sqrt s = some s' ∧ s'.sim.trajectory_pos = TRAJECTORY_LEN ∧
      s'.sim.gravitational_const = s.sim.gravitational_const ∧
      List.Forall₂ (fun b b' => b'.mass = b.mass ∧ b'.radius = b.radius ∧
          b'.translation = b.translation ∧
          ∃ t, b'.traj = b.traj ++ t ∧ t.length = TRAJECTORY_LEN - s.sim.trajectory_pos)
        s.bodies s'.bodies ∧
      (s.sim.trajectory_pos = TRAJECTORY_LEN → s' = s) := by
  have hL := one_le_TRAJECTORY_LEN
  have hreads : ∀ b ∈ s.bodies, s.sim.trajectory_pos - 1 < b.traj.length := by
    intro b hb; rw [hlock b hb]; omega
  have hcount : (TRAJECTORY_LEN - 1) - (s.sim.trajectory_pos - 1) =
      TRAJECTORY_LEN - s.sim.trajectory_pos := by omega
  have hpos' : s.sim.trajectory_pos + ((TRAJECTORY_LEN - 1) - (s.sim.trajectory_pos - 1)) =
      TRAJECTORY_LEN := by omega
  refine ⟨_, simulate_char sqrt s hne h1 hreads, hpos', rfl, ?_, ?_⟩
  · have hfa := extendIter_forall₂ sqrt s.sim.gravitational_const
      ((TRAJECTORY_LEN - 1) - (s.sim.trajectory_pos - 1)) (s.sim.trajectory_pos - 1) s.bodies
    exact forall₂_imp_mem hfa fun b hb b' hr =>
      ⟨hr.1, hr.2.1, hr.2.2.1, hr.2.2.2.choose,
        hr.2.2.2.choose_spec.1, by rw [hr.2.2.2.choose_spec.2, hcount]⟩
  · intro heq
    have hc0 : (TRAJECTORY_LEN - 1) - (s.sim.trajectory_pos - 1) = 0 := by omega
    show Sys.mk ⟨s.sim.gravitational_const,
        s.sim.trajectory_pos + ((TRAJECTORY_LEN - 1) - (s.sim.trajectory_pos - 1))⟩
      (extendIter sqrt s.sim.gravitational_const (s.sim.trajectory_pos - 1)
        ((TRAJECTORY_LEN - 1) - (s.sim.trajectory_pos - 1)) s.bodies) = s
    rw [hc0]
    rfl

/-! ### Concrete two-body scenario for the integrator step -/

def snapA : SimSnapshot := ⟨Vec2.zero, Vec2.zero⟩

def snapB : SimSnapshot := ⟨Vec2.zero, ⟨10, 0⟩⟩

def bodyA : Body := ⟨1, 1, Vec2.zero, [snapA]⟩

def bodyB : Body := ⟨1, 1, ⟨10, 0⟩, [snapB]⟩

/-- Body A after one step: velocity `(0.00005, 0)`, position
`(0.00000025, 0)` (exactly `1/20000` and `1/4000000`). -/
def bodyA1 : Body :=
  ⟨1, 1, Vec2.zero, [snapA, ⟨⟨1/20000, 0⟩, ⟨1/4000000, 0⟩⟩]⟩

/-- Body B after one step: the mirrored result in the -x direction. -/
def bodyB1 : Body :=
  ⟨1, 1, ⟨10, 0⟩, [snapB, ⟨⟨-(1/20000), 0⟩, ⟨39999999/4000000, 0⟩⟩]⟩

/-- A state with a popped body followed by an empty-trajectory body. -/
def mixSys : Sys := ⟨⟨1, 1⟩, [⟨1, 1, Vec2.zero, [dsnap]⟩, ⟨1, 1, Vec2.zero, []⟩]⟩

/-! ### The claims -/

/-- C1: one integrator step computes each target's acceleration as the sum
over the other bodies k of `G * mass_k * normalize(position_k -
position_target) / |position_k - position_target|^2`, then updates
`velocity' = velocity + accel * 0.005` and `position' = position +
velocity' * 0.005`; on the two-body input A at the origin and B at (10,0),
both of mass 1 with G = 1, A's acceleration is `(0.01, 0)`, its new
velocity `(0.00005, 0)` and new position `(0.00000025, 0)`, with the
mirrored result for B in the -x direction. -/
theorem C1_integrator_step (sqrt : ℚ → ℚ) (hsqrt : sqrt 100 = 10) :
    (∀ (f : ℚ → ℚ) (G : ℚ) (i j : ℕ) (cur : SimSnapshot) (bodies : List Body),
        (∀ b ∈ bodies, i < b.traj.length) →
        accelLoop f G i j cur 0 Vec2.zero bodies =
          some (specAccelSum f G j cur 0 (ctxAt bodies i))) ∧
    (∀ (f : ℚ → ℚ) (G : ℚ) (ctx : List (ℚ × SimSnapshot)) (j : ℕ) (cur : SimSnapshot),
        integrate f G ctx j cur =
          { velocity := cur.velocity + specAccelSum f G j cur 0 ctx * TIME_STEP,
            position := cur.position +
              (cur.velocity + specAccelSum f G j cur 0 ctx * TIME_STEP) * TIME_STEP }) ∧
    accelLoop sqrt 1 0 0 snapA 0 Vec2.zero [bodyA, bodyB] = some ⟨1/100, 0⟩ ∧
    stepBodies sqrt 1 0 [] [bodyA, bodyB] = some [bodyA1, bodyB1] := by
  refine ⟨?_, ?_, ?_, ?_⟩
  · intro f G i j cur bodies h
    rw [accelLoop_ok f G i j cur bodies 0 Vec2.zero h, accelPure_spec, Vec2.zero_add_v]
    rfl
  · intro f G ctx j cur
    simp only [integrate, accelPure_spec, Vec2.zero_add_v]
  · norm_num [accelLoop, bodyA, bodyB, snapA, snapB, Vec2.sub_def, Vec2.length_squared,
      Vec2.normalize, Vec2.divQ_def, Vec2.mulQ_def, Vec2.add_def, Vec2.zero, hsqrt]
  · norm_num [stepBodies, accelLoop, bodyA, bodyB, bodyA1, bodyB1, snapA, snapB,
      Vec2.sub_def, Vec2.length_squared, Vec2.normalize, Vec2.divQ_def, Vec2.mulQ_def,
      Vec2.add_def, Vec2.zero, hsqrt, TIME_STEP]

/-- Witness for C1 at the concrete square-root routine. -/
theorem C1_integrator_step_witness :
    sqrtFn 100 = 10 ∧
      stepBodies sqrtFn 1 0 [] [bodyA, bodyB] = some [bodyA1, bodyB1] :=
  ⟨by norm_num [sqrtFn], (C1_integrator_step sqrtFn (by norm_num [sqrtFn])).2.2.2⟩

/-- C2: on a non-empty lockstep state with `1 ≤ trajectory_pos ≤
TRAJECTORY_LEN`, `simulate` appends the snapshots for indices
`trajectory_pos .. TRAJECTORY_LEN - 1` to every trajectory, finishes with
`trajectory_pos = TRAJECTORY_LEN` and all trajectories of length
`TRAJECTORY_LEN`, never modifies an already-stored element, and is a
complete no-op when called with `trajectory_pos = TRAJECTORY_LEN`. -/
theorem C2_precompute_fills_horizon (sqrt : ℚ → ℚ) (s : Sys) (hne : s.bodies ≠ [])
    (hlock : ∀ b ∈ s.bodies, b.traj.length = s.sim.trajectory_pos)
    (h1 : 1 ≤ s.sim.trajectory_pos) (h2 : s.sim.trajectory_pos ≤ TRAJECTORY_LEN) :
    ∃ s', simulate sqrt s = some s' ∧ s'.sim.trajectory_pos = TRAJECTORY_LEN ∧
      s'.sim.gravitational_const = s.sim.gravitational_const ∧
      List.Forall₂ (fun b b' => b'.mass = b.mass ∧ b'.radius = b.radius ∧
          b'.translation = b.translation ∧ b'.traj.length = TRAJECTORY_LEN ∧
          ∃ t, b'.traj = b.traj ++ t ∧ t.length = TRAJECTORY_LEN - s.sim.trajectory_pos)
        s.bodies s'.bodies ∧
      (s.sim.trajectory_pos = TRAJECTORY_LEN → s' = s) := by
  obtain ⟨s', hsim, hpos, hG, hfa, hnoop⟩ := simulate_lockstep sqrt s hne hlock h1 h2
  refine ⟨s', hsim, hpos, hG, ?_, hnoop⟩
  refine forall₂_imp_mem hfa fun b hb b' hr => ?_
  obtain ⟨hm, hrad, ht, t, htr, hlen⟩ := hr
  refine ⟨hm, hrad, ht, ?_, t, htr, hlen⟩
  rw [htr, List.length_append, hlock b hb, hlen]
  omega

/-- Witness for C2 on the fresh one-body state. -/
theorem C2_precompute_fills_horizon_witness :
    (∀ b ∈ (oneBody 1 1).bodies, b.traj.length = (oneBody 1 1).sim.trajectory_pos) ∧
      ∃ s', simulate sqrtFn (oneBody 1 1) = some s' ∧
        s'.sim.trajectory_pos = TRAJECTORY_LEN := by
  refine ⟨by decide, ?_⟩
  obtain ⟨s', hsim, hpos, -⟩ := C2_precompute_fills_horizon sqrtFn (oneBody 1 1)
    (by decide) (by decide) (by decide) (by decide)
  exact ⟨s', hsim, hpos⟩

/-- C3 (amended): the zero-body call and the call whose first body has an
empty trajectory are complete no-ops; when every trajectory is non-empty
(and the cursor is positive) every head is popped, written back to the
translation, and the cursor drops by exactly one; but when an empty
trajectory sits behind non-empty ones, the bodies before it are still
popped and written back — only the cursor is left unchanged. -/
theorem C3_advance_guard :
    (∀ s : Sys, s.bodies = [] → update_positions s = some s) ∧
    (∀ (s : Sys) (b : Body) (rest : List Body), s.bodies = b :: rest → b.traj = [] →
      update_positions s = some s) ∧
    (∀ s : Sys, s.bodies ≠ [] → (∀ b ∈ s.bodies, b.traj ≠ []) → 1 ≤ s.sim.trajectory_pos →
      update_positions s =
        some ⟨⟨s.sim.gravitational_const, s.sim.trajectory_pos - 1⟩, s.bodies.map popB⟩) ∧
    (∀ (s : Sys) (l1 : List Body) (b : Body) (l2 : List Body), s.bodies = l1 ++ b :: l2 →
      (∀ x ∈ l1, x.traj ≠ []) → b.traj = [] →
      update_positions s = some ⟨s.sim, l1.map popB ++ b :: l2⟩) :=
  ⟨update_positions_no_bodies, update_positions_first_empty,
    fun s hne htrajs hpos => update_positions_ok s hne hpos htrajs,
    update_positions_split⟩

/-- Witness for C3 on the fresh one-body state. -/
theorem C3_advance_guard_witness :
    update_positions (oneBody 1 1) = some ⟨⟨1, 0⟩, [⟨1, 1, Vec2.zero, []⟩]⟩ :=
  C3_advance_guard.2.2.1 (oneBody 1 1) (by decide) (by decide) (by decide)

/-- Counterexample for C3 as stated: with a non-empty trajectory in front
of an empty one, the call is not a no-op — the first body is popped and its
transform rewritten even though a trajectory was empty. -/
theorem C3_advance_guard_cex :
    (mixSys.bodies.getD 1 dbody).traj = [] ∧
      update_positions mixSys =
        some ⟨⟨1, 1⟩, [⟨1, 1, Vec2.zero, []⟩, ⟨1, 1, Vec2.zero, []⟩]⟩ ∧
      update_positions mixSys ≠ some mixSys := by decide

/-- C4: on a state whose trajectories are all non-empty, one
`ClearTrajectories` event leaves every trajectory holding exactly its old
head, resets `trajectory_pos` to 1, and doing it again changes nothing. -/
theorem C4_invalidate_truncates (s : Sys) (hne : ∀ b ∈ s.bodies, b.traj ≠ []) :
    ∃ s', clear_trajectories_on_change s = some s' ∧
      s'.sim.trajectory_pos = 1 ∧
      s'.sim.gravitational_const = s.sim.gravitational_const ∧
      List.Forall₂ (fun b b' => b' = { b with traj := [b.traj.headI] }) s.bodies s'.bodies ∧
      clear_trajectories_on_change s' = some s' := by
  refine ⟨_, clear_char s hne, rfl, rfl, ?_, ?_⟩
  · exact forall₂_map_self clearB s.bodies
  · have hne' : ∀ b ∈ s.bodies.map clearB, b.traj ≠ [] := by
      intro b hb
      obtain ⟨a, -, rfl⟩ := List.mem_map.mp hb
      simp [clearB]
    have := clear_char ⟨⟨s.sim.gravitational_const, 1⟩, s.bodies.map clearB⟩ hne'
    rw [this]
    have hmap : (s.bodies.map clearB).map clearB = s.bodies.map clearB := by
      rw [List.map_map]
      exact List.map_congr_left fun b _ => rfl
    rw [hmap]

/-- Witness for C4 on the fresh one-body state. -/
theorem C4_invalidate_truncates_witness :
    ∃ s', clear_trajectories_on_change (oneBody 1 1) = some s' ∧
      s'.sim.trajectory_pos = 1 ∧ clear_trajectories_on_change s' = some s' := by
  obtain ⟨s', h1, h2, -, -, h3⟩ := C4_invalidate_truncates (oneBody 1 1) (by decide)
  exact ⟨s', h1, h2, h3⟩

/-- C5 (amended): the invariants `1 ≤ trajectory_pos ≤ TRAJECTORY_LEN` and
"every trajectory is non-empty, in lockstep with the cursor" hold on a
freshly loaded system and are preserved by `simulate`, by
`clear_trajectories_on_change`, and by `update_positions` whenever
`trajectory_pos ≥ 2`; the advance at `trajectory_pos = 1` is the one
operation of the core that leaves the invariant (see the
counterexample). -/
theorem C5_invariant_preservation :
    (∀ (G : ℚ) (bodies : List Body), (∀ b ∈ bodies, b.traj.length = 1) →
      StateInv ⟨⟨G, 1⟩, bodies⟩) ∧
    (∀ s : Sys, StateInv s → 1 ≤ s.sim.trajectory_pos ∧
      s.sim.trajectory_pos ≤ TRAJECTORY_LEN ∧ ∀ b ∈ s.bodies, b.traj ≠ []) ∧
    (∀ (sqrt : ℚ → ℚ) (s : Sys), StateInv s →
      ∃ s', simulate sqrt s = some s' ∧ StateInv s') ∧
    (∀ s : Sys, StateInv s →
      ∃ s', clear_trajectories_on_change s = some s' ∧ StateInv s') ∧
    (∀ s : Sys, StateInv s → 2 ≤ s.sim.trajectory_pos →
      ∃ s', update_positions s = some s' ∧ StateInv s') := by
  refine ⟨?_, ?_, ?_, ?_, ?_⟩
  · intro G bodies h
    exact ⟨le_refl 1, one_le_TRAJECTORY_LEN, h⟩
  · intro s hinv
    obtain ⟨h1, h2, hlock⟩ := hinv
    refine ⟨h1, h2, fun b hb hcon => ?_⟩
    have := hlock b hb
    rw [hcon] at this
    simp at this
    omega
  · exact fun sqrt s hinv => simulate_preserves sqrt s hinv
  · intro s hinv
    obtain ⟨s', h1, h2, -⟩ := clear_preserves s hinv
    exact ⟨s', h1, h2⟩
  · exact fun s hinv h2 => advance_preserves s hinv h2

/-- Witness for C5 at the fresh one-body state. -/
theorem C5_invariant_preservation_witness :
    StateInv (oneBody 1 1) ∧
      ∃ s', simulate sqrtFn (oneBody 1 1) = some s' ∧ StateInv s' :=
  ⟨by decide, C5_invariant_preservation.2.2.1 sqrtFn (oneBody 1 1) (by decide)⟩

/-- Counterexample for C5 as stated: a single manual advance from a fresh
state (which the claim declares legal in any state) drives
`trajectory_pos` to 0 and empties the trajectory. -/
theorem C5_invariant_preservation_cex :
    StateInv (oneBody 1 1) ∧
      update_positions (oneBody 1 1) = some (oneBody 0 0) ∧
      ¬ StateInv (oneBody 0 0) ∧
      ((oneBody 0 0).bodies.getD 0 dbody).traj = [] ∧
      (oneBody 0 0).sim.trajectory_pos = 0 := by decide

/-- C6: within one time index of the precomputation, the sequential
in-place loop (which pushes body j's new snapshot before processing body
j+1) is extensionally equal to the spec's two-phase synchronized update,
for every body count, ordering and initial state. -/
theorem C6_sequential_eq_two_phase (sqrt : ℚ → ℚ) (G : ℚ) (i : ℕ) (bodies : List Body) :
    stepBodies sqrt G i [] bodies = twoPhaseStep sqrt G i bodies := by
  by_cases hgood : ∀ b ∈ bodies, i < b.traj.length
  · rw [stepBodies_ok sqrt G i bodies [] (by simpa using hgood)]
    simp only [twoPhaseStep, computeNext_ok sqrt G i bodies hgood bodies 0 hgood,
      List.nil_append, List.length_nil]
    rw [← extendFrom_eq_zipWith]
  · have hbad : ∃ x ∈ bodies, x.traj.length ≤ i := by
      push_neg at hgood
      obtain ⟨x, hx, hle⟩ := hgood
      exact ⟨x, hx, by omega⟩
    cases bodies with
    | nil =>
      obtain ⟨x, hx, -⟩ := hbad
      cases hx
    | cons b rest =>
      rw [stepBodies_bad sqrt G i b rest hbad]
      simp only [twoPhaseStep, computeNext_bad sqrt G i b rest hbad]

/-- C7 (amended): any two completed no-edit runs (interleavings of advances
and precomputes) from the same freshly loaded state agree on the snapshots
delivered by their k-th advances whenever both actually deliver; in
particular an interleaving with extra precomputes delivers the same
sequence as precomputing the full horizon once and playing it back.  (As
stated the claim also fails in one corner, see the counterexample: an
advance that outruns precomputation delivers nothing, while the reference
run's k-th advance still delivers.) -/
theorem C7_playback_stability (sqrt : ℚ → ℚ) (G : ℚ) (bodies0 : List Body)
    (hne : bodies0 ≠ []) (hfresh : ∀ b ∈ bodies0, b.traj.length = 1)
    (ops1 ops2 : List Op) (hni1 : Op.invalidate ∉ ops1) (hni2 : Op.invalidate ∉ ops2)
    (s1 s2 : Sys) (log1 log2 : List (Option (List SimSnapshot)))
    (hr1 : runOps sqrt ops1 ⟨⟨G, 1⟩, bodies0⟩ = some (s1, log1))
    (hr2 : runOps sqrt ops2 ⟨⟨G, 1⟩, bodies0⟩ = some (s2, log2))
    (k : ℕ) (d1 d2 : List SimSnapshot)
    (hk1 : log1.get? k = some (some d1)) (hk2 : log2.get? k = some (some d2)) :
    d1 = d2 := by
  have hC0 : ctxAt bodies0 0 ≠ [] := by
    intro hcon
    apply hne
    have : (ctxAt bodies0 0).length = bodies0.length := by simp [ctxAt]
    rw [hcon] at this
    exact List.length_eq_zero.mp this.symm
  have hWin : IsWindow sqrt G (ctxAt bodies0 0) 0 1 bodies0 := by
    constructor
    · simp [ctxAt]
    · intro j b hj
      have hmem : b ∈ bodies0 := List.get?_mem hj
      have hctxj : (ctxAt bodies0 0).get? j = some (b.mass, b.traj.getD 0 dsnap) := by
        rw [ctxAt, List.get?_map, hj]
        rfl
      obtain ⟨a, ha⟩ := List.length_eq_one.mp (hfresh b hmem)
      constructor
      · rw [hctxj]
        rfl
      · rw [windowTraj]
        show b.traj = [genSnap sqrt G (ctxAt bodies0 0) 0 j]
        rw [genSnap]
        show b.traj = [((ctxAt bodies0 0).getD j pdflt).2]
        rw [List.getD_eq_getD_get?, hctxj]
        rw [ha]
        show [a] = [([a].getD 0 dsnap)]
        rfl
  have hInv : RunInv sqrt G (ctxAt bodies0 0) 0 (⟨⟨G, 1⟩, bodies0⟩ : Sys) :=
    ⟨rfl, one_le_TRAJECTORY_LEN, hWin⟩
  have e1 := run_delivers sqrt G (ctxAt bodies0 0) hC0 ops1 hni1 0 _ s1 log1 hInv hr1 k d1 hk1
  have e2 := run_delivers sqrt G (ctxAt bodies0 0) hC0 ops2 hni2 0 _ s2 log2 hInv hr2 k d2 hk2
  rw [e1, e2]

/-- Witness for C7: two identical one-advance runs deliver the same head. -/
theorem C7_playback_stability_witness :
    runOps sqrtFn [Op.advance] (oneBody 1 1) = some (oneBody 0 0, [some [dsnap]]) ∧
      ([dsnap] : List SimSnapshot) = [dsnap] := by
  refine ⟨by decide, ?_⟩
  exact C7_playback_stability sqrtFn 1 [⟨1, 1, Vec2.zero, [dsnap]⟩] (by decide) (by decide)
    [Op.advance] [Op.advance] (by decide) (by decide) (oneBody 0 0) (oneBody 0 0)
    [some [dsnap]] [some [dsnap]] (by decide) (by decide) 0 [dsnap] [dsnap]
    (by decide) (by decide)

theorem simulate_oneBody_full (sqrt : ℚ → ℚ) :
    simulate sqrt (oneBody 1 1) = some (oneBody 12000 12000) := by
  rw [simulate_oneBody]
  norm_num [TRAJECTORY_LEN]

theorem advance_oneBody_full :
    update_positions (oneBody 12000 12000) = some (oneBody 11999 11999) ∧
      deliveredBy (oneBody 12000 12000) = some [dsnap] := by
  have h := advance_oneBody 12000 11999 (by norm_num)
  norm_num at h
  exact h

theorem advance_oneBody_second :
    update_positions (oneBody 11999 11999) = some (oneBody 11998 11998) ∧
      deliveredBy (oneBody 11999 11999) = some [dsnap] := by
  have h := advance_oneBody 11999 11998 (by norm_num)
  norm_num at h
  exact h

theorem clear_oneBody_full :
    clear_trajectories_on_change (oneBody 11999 11999) = some (oneBody 1 1) := by
  have h := clear_oneBody 11999 11998
  norm_num at h
  exact h

theorem runOps_cons_pre (sqrt : ℚ → ℚ) (ops : List Op) (s s1 : Sys)
    (h : simulate sqrt s = some s1) :
    runOps sqrt (Op.precompute :: ops) s = runOps sqrt ops s1 := by
  simp only [runOps, h]

theorem runOps_cons_inv (sqrt : ℚ → ℚ) (ops : List Op) (s s1 : Sys)
    (h : clear_trajectories_on_change s = some s1) :
    runOps sqrt (Op.invalidate :: ops) s = runOps sqrt ops s1 := by
  simp only [runOps, h]

theorem runOps_cons_adv (sqrt : ℚ → ℚ) (ops : List Op) (s s1 : Sys)
    (h : update_positions s = some s1) :
    runOps sqrt (Op.advance :: ops) s =
      (runOps sqrt ops s1).map fun r => (r.1, deliveredBy s :: r.2) := by
  simp only [runOps, h]
  cases runOps sqrt ops s1 with
  | none => rfl
  | some r => cases r; rfl

theorem advance_oneBody_starved :
    update_positions (oneBody 0 0) = some (oneBody 0 0) ∧
      deliveredBy (oneBody 0 0) = none := by decide

theorem advance_oneBody_fresh :
    update_positions (oneBody 1 1) = some (oneBody 0 0) ∧
      deliveredBy (oneBody 1 1) = some [dsnap] := by decide

/-- Counterexample for C7 as stated: the interleaving of two bare advances
(with zero further precomputes) delivers nothing on its second advance,
while the reference run — precompute the full horizon once, then advance —
delivers the zero snapshot on its second advance. -/
theorem C7_playback_stability_cex :
    (runOps sqrtFn [Op.precompute, Op.advance, Op.advance] (oneBody 1 1)).map Prod.snd =
        some [some [dsnap], some [dsnap]] ∧
      (runOps sqrtFn [Op.advance, Op.advance] (oneBody 1 1)).map Prod.snd =
        some [some [dsnap], none] := by
  constructor
  · rw [runOps_cons_pre sqrtFn _ _ _ (simulate_oneBody_full sqrtFn),
      runOps_cons_adv sqrtFn _ _ _ advance_oneBody_full.1,
      runOps_cons_adv sqrtFn _ _ _ advance_oneBody_second.1,
      show runOps sqrtFn [] (oneBody 11998 11998) = some (oneBody 11998 11998, []) from rfl,
      advance_oneBody_full.2, advance_oneBody_second.2]
    rfl
  · rw [runOps_cons_adv sqrtFn _ _ _ advance_oneBody_fresh.1,
      runOps_cons_adv sqrtFn _ _ _ advance_oneBody_starved.1,
      show runOps sqrtFn [] (oneBody 0 0) = some (oneBody 0 0, []) from rfl,
      advance_oneBody_fresh.2, advance_oneBody_starved.2]
    rfl

/-- A run whose advances are all performed with at least two precomputed
snapshots ahead (`trajectory_pos ≥ 2`), so that no buffer ever empties. -/
def AdvGuarded (sqrt : ℚ → ℚ) : Sys → List Op → Prop
  | _, [] => True
  | s, op :: ops =>
    (op = Op.advance → 2 ≤ s.sim.trajectory_pos) ∧
      ∀ s', applyOp sqrt s op = some s' → AdvGuarded sqrt s' ops

/-- C8 (amended): from any lockstep state (in particular a freshly loaded
system), every sequence of precompute, invalidate and advance calls in
which each advance still has two snapshots of horizon ahead completes
without a panic — no unwrap, usize subtraction or index access fails — and
preserves the lockstep invariant.  (As stated the claim also covered
unguarded advances; those can panic, see the counterexample.) -/
theorem C8_no_panic (sqrt : ℚ → ℚ) (ops : List Op) (s : Sys)
    (hinv : StateInv s) (hg : AdvGuarded sqrt s ops) :
    ∃ s' log, runOps sqrt ops s = some (s', log) ∧ StateInv s' := by
  induction ops generalizing s with
  | nil => exact ⟨s, [], rfl, hinv⟩
  | cons op ops ih =>
    obtain ⟨hguard, hnext⟩ := hg
    cases op with
    | precompute =>
      obtain ⟨s1, hs1, hinv1⟩ := simulate_preserves sqrt s hinv
      obtain ⟨s', log, hrun, hinv'⟩ := ih s1 hinv1 (hnext s1 hs1)
      exact ⟨s', log, by simp only [runOps, hs1, hrun], hinv'⟩
    | invalidate =>
      obtain ⟨s1, hs1, hinv1, -⟩ := clear_preserves s hinv
      obtain ⟨s', log, hrun, hinv'⟩ := ih s1 hinv1 (hnext s1 hs1)
      exact ⟨s', log, by simp only [runOps, hs1, hrun], hinv'⟩
    | advance =>
      obtain ⟨s1, hs1, hinv1⟩ := advance_preserves s hinv (hguard rfl)
      obtain ⟨s', log, hrun, hinv'⟩ := ih s1 hinv1 (hnext s1 hs1)
      exact ⟨s', deliveredBy s :: log, by simp only [runOps, hs1, hrun], hinv'⟩

/-- Witness for C8: a guarded run consisting of one invalidation. -/
theorem C8_no_panic_witness :
    StateInv (oneBody 1 1) ∧
      ∃ s' log, runOps sqrtFn [Op.invalidate] (oneBody 1 1) = some (s', log) ∧
        StateInv s' := by
  refine ⟨by decide, C8_no_panic sqrtFn [Op.invalidate] (oneBody 1 1) (by decide) ?_⟩
  constructor
  · intro h
    cases h
  · intro s' _
    exact trivial

/-- Counterexample for C8 as stated: from a freshly loaded system, a single
(legal) manual advance empties the buffers, after which the unwrap in
`clear_trajectories_on_change` — and likewise the usize subtraction in
`simulate` — panics. -/
theorem C8_no_panic_cex :
    runOps sqrtFn [Op.advance] (oneBody 1 1) = some (oneBody 0 0, [some [dsnap]]) ∧
      clear_trajectories_on_change (oneBody 0 0) = none ∧
      simulate sqrtFn (oneBody 0 0) = none ∧
      runOps sqrtFn [Op.advance, Op.invalidate] (oneBody 1 1) = none := by decide

/-- C9 (amended): on any state with a non-empty body set and non-empty
trajectories, invalidation followed by precomputation restores
`trajectory_pos = TRAJECTORY_LEN` and leaves every trajectory with length
`TRAJECTORY_LEN` — the full horizon, not `TRAJECTORY_LEN` minus the number
of advances consumed before the invalidation (see the counterexample). -/
theorem C9_invalidate_precompute_roundtrip (sqrt : ℚ → ℚ) (s : Sys)
    (hne : s.bodies ≠ []) (htrajs : ∀ b ∈ s.bodies, b.traj ≠ []) :
    ∃ s1 s2, clear_trajectories_on_change s = some s1 ∧ simulate sqrt s1 = some s2 ∧
      s2.sim.trajectory_pos = TRAJECTORY_LEN ∧
      ∀ b ∈ s2.bodies, b.traj.length = TRAJECTORY_LEN := by
  have hclear := clear_char s htrajs
  have hne1 : (Sys.mk ⟨s.sim.gravitational_const, 1⟩ (s.bodies.map clearB)).bodies ≠ [] := by
    intro hcon
    apply hne
    exact List.map_eq_nil.mp hcon
  have hlock1 : ∀ b ∈ (Sys.mk ⟨s.sim.gravitational_const, 1⟩ (s.bodies.map clearB)).bodies,
      b.traj.length =
        (Sys.mk ⟨s.sim.gravitational_const, 1⟩ (s.bodies.map clearB)).sim.trajectory_pos := by
    intro b hb
    obtain ⟨a, -, rfl⟩ := List.mem_map.mp hb
    rfl
  obtain ⟨s2, hsim, hpos, -, hfa, -⟩ := simulate_lockstep sqrt
    (Sys.mk ⟨s.sim.gravitational_const, 1⟩ (s.bodies.map clearB)) hne1 hlock1
    (le_refl 1) one_le_TRAJECTORY_LEN
  refine ⟨_, s2, hclear, hsim, hpos, ?_⟩
  intro b' hb'
  obtain ⟨b, hb, -, -, -, t, htr, hlen⟩ := forall₂_mem_right hfa b' hb'
  have hL := one_le_TRAJECTORY_LEN
  have hb1 : b.traj.length = 1 := hlock1 b hb
  have hlen' : t.length = TRAJECTORY_LEN - 1 := hlen
  rw [htr, List.length_append, hb1, hlen']
  omega

/-- Witness for C9 at the fresh one-body state. -/
theorem C9_invalidate_precompute_roundtrip_witness :
    ∃ s1 s2, clear_trajectories_on_change (oneBody 1 1) = some s1 ∧
      simulate sqrtFn s1 = some s2 ∧ s2.sim.trajectory_pos = TRAJECTORY_LEN := by
  obtain ⟨s1, s2, h1, h2, h3, -⟩ := C9_invalidate_precompute_roundtrip sqrtFn
    (oneBody 1 1) (by decide) (by decide)
  exact ⟨s1, s2, h1, h2, h3⟩

/-- Counterexample for C9 as stated: precompute, consume one advance,
invalidate, precompute again — the trajectory length is the full
`TRAJECTORY_LEN`, not `TRAJECTORY_LEN - 1`. -/
theorem C9_invalidate_precompute_roundtrip_cex :
    (runOps sqrtFn [Op.precompute, Op.advance, Op.invalidate, Op.precompute]
        (oneBody 1 1)).map (fun p => p.1.bodies.map fun b => b.traj.length) =
      some [TRAJECTORY_LEN] ∧ TRAJECTORY_LEN ≠ TRAJECTORY_LEN - 1 := by
  constructor
  · rw [runOps_cons_pre sqrtFn _ _ _ (simulate_oneBody_full sqrtFn),
      runOps_cons_adv sqrtFn _ _ _ advance_oneBody_full.1,
      runOps_cons_inv sqrtFn _ _ _ clear_oneBody_full,
      runOps_cons_pre sqrtFn _ _ _ (simulate_oneBody_full sqrtFn),
      show runOps sqrtFn [] (oneBody 12000 12000) = some (oneBody 12000 12000, []) from rfl]
    norm_num [oneBody, TRAJECTORY_LEN]
  · norm_num [TRAJECTORY_LEN]

/-- C10: the emptiness guard of the advance only rejects trajectories that
are already empty: called when every trajectory holds exactly one snapshot
(and `trajectory_pos = 1`), each sole snapshot is popped and written back,
leaving every trajectory empty and `trajectory_pos = 0`. -/
theorem C10_advance_empties_buffers (s : Sys) (hne : s.bodies ≠ [])
    (hlen : ∀ b ∈ s.bodies, b.traj.length = 1) (hpos : s.sim.trajectory_pos = 1) :
    ∃ s', update_positions s = some s' ∧ s'.sim.trajectory_pos = 0 ∧
      s'.sim.gravitational_const = s.sim.gravitational_const ∧
      List.Forall₂ (fun b b' => b'.traj = [] ∧ b'.translation = b.traj.headI.position ∧
        b'.mass = b.mass ∧ b'.radius = b.radius) s.bodies s'.bodies := by
  have htrajs : ∀ b ∈ s.bodies, b.traj ≠ [] := by
    intro b hb hcon
    have := hlen b hb
    rw [hcon] at this
    cases this
  have hok := update_positions_ok s hne (by omega) htrajs
  refine ⟨_, hok, by simp [hpos], rfl, ?_⟩
  refine forall₂_imp_mem (forall₂_map_self popB s.bodies) fun b hb b' hr => ?_
  rw [hr]
  refine ⟨?_, rfl, rfl, rfl⟩
  show b.traj.tail = []
  rw [← List.length_eq_zero, List.length_tail, hlen b hb]

/-- Witness for C10 at the fresh one-body state. -/
theorem C10_advance_empties_buffers_witness :
    ∃ s', update_positions (oneBody 1 1) = some s' ∧ s'.sim.trajectory_pos = 0 := by
  obtain ⟨s', h1, h2, -⟩ := C10_advance_empties_buffers (oneBody 1 1)
    (by decide) (by decide) (by decide)
  exact ⟨s', h1, h2⟩

end NBody
